import Mathlib

/-!
Verification of the AFML focus-arbitration engine (`AFML/src/FocusManager.cpp`).

The embedding models the manager's settled, serialized behaviour: every public
entry point together with the worker task it enqueues is one atomic step (the
SerialExecutor runs tasks one at a time to completion, and all claims are about
states in which the executor queue has drained).  Channels are identified by
their unique registered name; an observer is identified by a numeric identity
(`Option Nat`, `none` standing for a null observer pointer); focus-change
callbacks are recorded in an append-only trace of
(channel name, observer identity, delivered state) triples.

The `Channel` class itself lives outside the translated source file; its
operations (`set_focus`, `set_observer`, `set_activity_id`,
`does_observer_own_channel`, `stop_activity`, the priority ordering) are
modelled from the specification's Channel contract (spec section 4.1), as noted
on each definition.
-/

/-- The three-valued focus tag of the engine (`FocusState` in the source). -/
inductive FocusState : Type
  | FOREGROUND
  | BACKGROUND
  | NONE
deriving DecidableEq, Repr

/-- State of one arbitration slot.  `priority` is fixed at construction (lower
numeric value = higher priority); `observer` is the currently installed
observer identity, `none` modelling a null pointer; `activityId` names the
occupying activity; `focus` caches the last state delivered for this tenure. -/
structure Channel : Type where
  priority : Nat
  observer : Option Nat
  activityId : String
  focus : FocusState
deriving DecidableEq, Repr

/-- One entry of the channel-configuration list passed to the constructor. -/
structure ChannelConfiguration : Type where
  name : String
  priority : Nat
deriving DecidableEq, Repr

/-- Error log events emitted by the constructor (`createChannelFailed` with its
`reason` field). -/
inductive LogEvent : Type
  | channelNameExists (cfg : ChannelConfiguration)
  | channelPriorityExists (cfg : ChannelConfiguration)
deriving DecidableEq, Repr

/-- A focus notification delivered to an observer: channel name, observer
identity, delivered state. -/
abbrev Notification : Type := String × Nat × FocusState

/-- The full manager state: the registered channels (`m_allChannels`, an
association list name -> channel), the names of the active channels
(`m_activeChannels`; a mathematical set in the source, kept duplicate-free by
the insert operation), and the append-only trace of observer notifications. -/
structure FMState : Type where
  allChannels : List (String × Channel)
  activeChannels : List String
  trace : List Notification
deriving DecidableEq, Repr

/-- Lookup of a registered channel by name (`FocusManager::getChannel`). -/
def getChannel (s : FMState) (name : String) : Option Channel :=
  (s.allChannels.find? (fun p => p.1 == name)).map (·.2)

/-- Apply an update function to the channel registered under `name`. -/
def updateChannel (s : FMState) (name : String) (f : Channel → Channel) : FMState :=
  { s with allChannels := s.allChannels.map (fun p => if p.1 == name then (p.1, f p.2) else p) }

/-- Priority of the channel registered under `name` (0 if unregistered; all
uses are guarded by registration). -/
def prioOf (s : FMState) (name : String) : Nat :=
  match getChannel s name with
  | some ch => ch.priority
  | none => 0

/-- Cached focus of the channel registered under `name` (`NONE` if
unregistered). -/
def focusOf (s : FMState) (name : String) : FocusState :=
  match getChannel s name with
  | some ch => ch.focus
  | none => FocusState.NONE

/-- Currently installed observer of the channel registered under `name`. -/
def observerOf (s : FMState) (name : String) : Option Nat :=
  match getChannel s name with
  | some ch => ch.observer
  | none => none

/-- Modelled from the spec: `Channel::getActivityId` (spec 4.1), the current
activity id of the channel (missing from src/, only its caller is). -/
def getActivityId (s : FMState) (name : String) : String :=
  match getChannel s name with
  | some ch => ch.activityId
  | none => ""

/-- Modelled from the spec: `Channel::setActivityId` (spec 4.1) — overwrite the
channel's activity id (missing from src/, only its caller is). -/
def setActivityId (s : FMState) (name : String) (aid : String) : FMState :=
  updateChannel s name (fun c => { c with activityId := aid })

/-- Modelled from the spec: `Channel::setFocus` (spec 4.1) — setting the value
already cached is a no-op; otherwise the cached focus is updated and the
current observer (when present) is notified with the new state (missing from
src/, only its callers are). -/
def setFocus (s : FMState) (name : String) (f : FocusState) : FMState :=
  match getChannel s name with
  | none => s
  | some ch =>
    if ch.focus = f then s
    else
      let s' := updateChannel s name (fun c => { c with focus := f })
      match ch.observer with
      | none => s'
      | some o => { s' with trace := s'.trace ++ [(name, o, f)] }

/-- Modelled from the spec: `Channel::setObserver` (spec 4.1) — a previous
observer, if any, is transitioned to `None` first (single callback, cached
focus untouched), then the new observer is installed at the current cached
focus (missing from src/, only its caller is). -/
def setObserver (s : FMState) (name : String) (obs : Option Nat) : FMState :=
  match getChannel s name with
  | none => s
  | some ch =>
    let s' :=
      match ch.observer with
      | some o => { s with trace := s.trace ++ [(name, o, FocusState.NONE)] }
      | none => s
    updateChannel s' name (fun c => { c with observer := obs })

/-- Modelled from the spec: `Channel::doesObserverOwnChannel` (spec 4.1) — true
iff the supplied observer identity equals the current observer (missing from
src/, only its caller is). -/
def doesObserverOwnChannel (s : FMState) (name : String) (obs : Option Nat) : Bool :=
  match getChannel s name with
  | some ch => ch.observer == obs
  | none => false

/-- Modelled from the spec: `Channel::stopActivity` (spec 4.1) — returns true
iff the channel's current activity id equals the argument; otherwise false
with no effect (missing from src/, only its caller is). -/
def stopActivity (s : FMState) (name : String) (aid : String) : Bool :=
  getActivityId s name == aid

/-- Insertion into `m_activeChannels` (a `std::set`): a no-op when the channel
is already present. -/
def insertActive (s : FMState) (name : String) : FMState :=
  if name ∈ s.activeChannels then s
  else { s with activeChannels := name :: s.activeChannels }

/-- First element of a list under the priority order `p` (the element with the
least `p`-value, earliest occurrence winning ties). -/
def listArgmin (p : String → Nat) (l : List String) : Option String :=
  l.foldl (fun acc c =>
    match acc with
    | none => some c
    | some b => if p c < p b then some c else some b) none

/-- `FocusManager::getHighestPriorityActiveChannelLocked`: the begin() of the
priority-ordered active set — the active channel of least numeric priority
(highest priority), or `none` when the set is empty. -/
def topActive (s : FMState) : Option String :=
  listArgmin (prioOf s) s.activeChannels

/-- `FocusManager::isChannelForegroundedLocked`: identity comparison with the
top of the active set. -/
def isChannelForegroundedLocked (s : FMState) (name : String) : Bool :=
  topActive s == some name

/-- `FocusManager::foregroundHighestPriorityActiveChannel`: read the top of the
active set and, when one exists, set it to FOREGROUND. -/
def foregroundHighestPriorityActiveChannel (s : FMState) : FMState :=
  match topActive s with
  | none => s
  | some c => setFocus s c FocusState.FOREGROUND

/-- `FocusManager::acquireChannelHelper` (the worker task): snapshot the
current foreground channel, set the acquired channel's activity id, insert it
into the active set, install the observer, then decide the new focus from the
snapshot.  Channel priorities are immutable, so the priority comparison
`*channelToAcquire > *foregroundChannel` (spec 4.1: `a > b` iff `a` has the
lower numeric priority) is written against the snapshot state `s`. -/
def acquireChannelHelper (s : FMState) (name : String) (obs : Option Nat)
    (aid : String) : FMState :=
  let foregroundChannel := topActive s
  let s1 := setActivityId s name aid
  let s2 := insertActive s1 name
  let s3 := setObserver s2 name obs
  match foregroundChannel with
  | none => setFocus s3 name FocusState.FOREGROUND
  | some f =>
    if f = name then setFocus s3 name FocusState.FOREGROUND
    else if prioOf s name < prioOf s f then
      setFocus (setFocus s3 f FocusState.BACKGROUND) name FocusState.FOREGROUND
    else setFocus s3 name FocusState.BACKGROUND

/-- `FocusManager::acquireChannel` with its enqueued task run to completion:
an unregistered name fails with `false` and no state change; otherwise the
helper runs and the call returns `true`. -/
def acquireChannel (s : FMState) (name : String) (obs : Option Nat)
    (aid : String) : Bool × FMState :=
  match getChannel s name with
  | none => (false, s)
  | some _ => (true, acquireChannelHelper s name obs aid)

/-- `FocusManager::releaseChannelHelper` (the worker task): a non-owning
observer is rejected with `false` and no state change; otherwise the promise
is fulfilled `true`, the channel is removed from the active set (recording
whether it was the foregrounded one), its focus is set to `NONE`, and if it
was foregrounded the new highest-priority active channel is foregrounded. -/
def releaseChannelHelper (s : FMState) (name : String) (obs : Option Nat) :
    Bool × FMState :=
  if ¬ doesObserverOwnChannel s name obs then (false, s)
  else
    let wasForegrounded := isChannelForegroundedLocked s name
    let s1 := { s with activeChannels := s.activeChannels.erase name }
    let s2 := setFocus s1 name FocusState.NONE
    (true, if wasForegrounded then foregroundHighestPriorityActiveChannel s2 else s2)

/-- `FocusManager::releaseChannel` with its enqueued task run to completion:
the Bool is the value the returned future is fulfilled with. -/
def releaseChannel (s : FMState) (name : String) (obs : Option Nat) :
    Bool × FMState :=
  match getChannel s name with
  | none => (false, s)
  | some _ => releaseChannelHelper s name obs

/-- `FocusManager::stopForegroundActivityHelper` (the worker task): if the
channel's activity id no longer matches the snapshot, do nothing; otherwise
clear the activity id, remove the channel from the active set, and foreground
the new highest-priority active channel. -/
def stopForegroundActivityHelper (s : FMState) (fgName : String)
    (fgAid : String) : FMState :=
  if ¬ stopActivity s fgName fgAid then s
  else
    let s1 := setActivityId s fgName ""
    let s2 := { s1 with activeChannels := s1.activeChannels.erase fgName }
    foregroundHighestPriorityActiveChannel s2

/-- `FocusManager::stopForegroundActivity` with its enqueued task run to
completion: snapshot the foreground channel and its activity id (no-op when
there is none), then run the helper on the snapshot. -/
def stopForegroundActivity (s : FMState) : FMState :=
  match topActive s with
  | none => s
  | some fg => stopForegroundActivityHelper s fg (getActivityId s fg)

/-- `FocusManager::doesChannelNameExist` over the channels built so far. -/
def doesChannelNameExist (chans : List (String × Channel)) (name : String) : Bool :=
  chans.any (fun p => p.1 == name)

/-- `FocusManager::doesChannelPriorityExist` over the channels built so far. -/
def doesChannelPriorityExist (chans : List (String × Channel)) (prio : Nat) : Bool :=
  chans.any (fun p => p.2.priority == prio)

/-- The constructor's loop over the configuration list: an entry whose name is
already registered is rejected with a `channelNameExists` log; else an entry
whose priority is already registered is rejected with a
`channelPriorityExists` log; else a fresh channel is inserted. -/
def buildChannels (chans : List (String × Channel)) (logs : List LogEvent) :
    List ChannelConfiguration → List (String × Channel) × List LogEvent
  | [] => (chans, logs)
  | cfg :: rest =>
    if doesChannelNameExist chans cfg.name then
      buildChannels chans (logs ++ [LogEvent.channelNameExists cfg]) rest
    else if doesChannelPriorityExist chans cfg.priority then
      buildChannels chans (logs ++ [LogEvent.channelPriorityExists cfg]) rest
    else
      buildChannels (chans ++ [(cfg.name, Channel.mk cfg.priority none "" FocusState.NONE)])
        logs rest

/-- `FocusManager::FocusManager`: process the configuration list in order; the
active set and the notification trace start empty. -/
def mkFocusManager (cfgs : List ChannelConfiguration) : FMState :=
  { allChannels := (buildChannels [] [] cfgs).1
    activeChannels := []
    trace := [] }

/-- The log events emitted by construction. -/
def mkFocusManagerLogs (cfgs : List ChannelConfiguration) : List LogEvent :=
  (buildChannels [] [] cfgs).2

/-- The last notification delivered to observer `o` for its tenure on channel
`name` (spec glossary: an observer is the sink for a single channel tenure). -/
def lastDelivered (s : FMState) (name : String) (o : Nat) : Option FocusState :=
  ((s.trace.filter (fun e => e.1 == name && e.2.1 == o)).getLast?).map (·.2.2)

/-- One settled operation of the manager: a public entry point together with
the worker task it enqueued, run to completion with the executor drained. -/
inductive FMStep : FMState → FMState → Prop
  | acquire (s : FMState) (name : String) (obs : Option Nat) (aid : String) :
      FMStep s (acquireChannel s name obs aid).2
  | release (s : FMState) (name : String) (obs : Option Nat) :
      FMStep s (releaseChannel s name obs).2
  | stop (s : FMState) :
      FMStep s (stopForegroundActivity s)

/-- States reachable from a freshly constructed manager by settled operations. -/
inductive FMReachable (cfgs : List ChannelConfiguration) : FMState → Prop
  | init : FMReachable cfgs (mkFocusManager cfgs)
  | step {s t : FMState} : FMReachable cfgs s → FMStep s t → FMReachable cfgs t

/-- The entrywise update used by `updateChannel`. -/
def updEntry (name : String) (f : Channel → Channel) (p : String × Channel) :
    String × Channel :=
  if p.1 == name then (p.1, f p.2) else p

/-- One folding step of `listArgmin`. -/
def argminStep (p : String → Nat) (acc : Option String) (c : String) : Option String :=
  match acc with
  | none => some c
  | some b => if p c < p b then some c else some b

/-- Invariant of the settled manager state: registered names and priorities are
unique; the active list is duplicate-free and contains only registered names;
the top of the active set (when it exists) has FOREGROUND focus while every
other active channel is BACKGROUND; and a vacated channel that still has an
observer installed last notified that observer with NONE. -/
structure FMInv (s : FMState) : Prop where
  names_nodup : (s.allChannels.map Prod.fst).Nodup
  prios_nodup : (s.allChannels.map (fun p => p.2.priority)).Nodup
  active_nodup : s.activeChannels.Nodup
  active_reg : ∀ c ∈ s.activeChannels, (getChannel s c).isSome = true
  top_fg : ∀ c, topActive s = some c → focusOf s c = FocusState.FOREGROUND
  rest_bg : ∀ c ∈ s.activeChannels, topActive s ≠ some c → focusOf s c = FocusState.BACKGROUND
  idle_last : ∀ c o ch, getChannel s c = some ch → ch.focus = FocusState.NONE →
      ch.observer = some o → lastDelivered s c o = some FocusState.NONE

/-- Channel configurations of the running example (spec section 8): Dialog at
priority 100, Content at priority 300. -/
def exCfgs : List ChannelConfiguration :=
  [ChannelConfiguration.mk "Dialog" 100, ChannelConfiguration.mk "Content" 300]

/-- The freshly constructed example manager. -/
def exS0 : FMState := mkFocusManager exCfgs

/-- After acquire(Content, observer 1, "music"). -/
def exS1 : FMState := (acquireChannel exS0 "Content" (some 1) "music").2

/-- After the further acquire(Dialog, observer 2, "tts"): Dialog Foreground,
Content Background. -/
def exS2 : FMState := (acquireChannel exS1 "Dialog" (some 2) "tts").2

/-- After one settled stop_foreground_activity from `exS2`. -/
def exS3 : FMState := stopForegroundActivity exS2

/-- After a second settled stop_foreground_activity. -/
def exS4 : FMState := stopForegroundActivity exS3

/-- A one-channel configuration. -/
def exCfgsA : List ChannelConfiguration := [ChannelConfiguration.mk "A" 100]

/-- Its fresh manager. -/
def exT0 : FMState := mkFocusManager exCfgsA

/-- After acquire(A, observer 1, "x"): A is active. -/
def exT1 : FMState := (acquireChannel exT0 "A" (some 1) "x").2

/-- Re-acquire of the already active A by observer 2. -/
def exT2 : FMState := (acquireChannel exT1 "A" (some 2) "y").2

/-- Release of A by observer 2 after the re-acquire. -/
def exT3 : FMState := (releaseChannel exT2 "A" (some 2)).2

/-! ### Basic lemmas about the channel registry -/

theorem updEntry_fst (name : String) (f : Channel → Channel) (p : String × Channel) :
    (updEntry name f p).1 = p.1 := by
  unfold updEntry
  split <;> rfl

theorem updateChannel_allChannels (s : FMState) (name : String) (f : Channel → Channel) :
    (updateChannel s name f).allChannels = s.allChannels.map (updEntry name f) := rfl

theorem find?_map_updEntry_self (l : List (String × Channel)) (name : String)
    (f : Channel → Channel) :
    (l.map (updEntry name f)).find? (fun p => p.1 == name)
      = (l.find? (fun p => p.1 == name)).map (updEntry name f) := by
  induction l with
  | nil => rfl
  | cons a l ih =>
    rw [List.map_cons]
    by_cases h : a.1 = name
    · rw [List.find?_cons_of_pos _ (by simp [updEntry_fst, h]),
        List.find?_cons_of_pos _ (by simp [h])]
      rfl
    · rw [List.find?_cons_of_neg _ (by simp [updEntry_fst, h]),
        List.find?_cons_of_neg _ (by simp [h]), ih]

theorem find?_map_updEntry_ne (l : List (String × Channel)) (name m : String)
    (f : Channel → Channel) (hnm : m ≠ name) :
    (l.map (updEntry name f)).find? (fun p => p.1 == m)
      = l.find? (fun p => p.1 == m) := by
  induction l with
  | nil => rfl
  | cons a l ih =>
    rw [List.map_cons]
    by_cases h : a.1 = m
    · have hn : ¬ (a.1 = name) := by rw [h]; exact hnm
      rw [List.find?_cons_of_pos _ (by simp [updEntry_fst, h]),
        List.find?_cons_of_pos _ (by simp [h])]
      simp [updEntry, hn]
    · rw [List.find?_cons_of_neg _ (by simp [updEntry_fst, h]),
        List.find?_cons_of_neg _ (by simp [h]), ih]

theorem getChannel_updateChannel_self (s : FMState) (name : String) (f : Channel → Channel) :
    getChannel (updateChannel s name f) name = (getChannel s name).map f := by
  unfold getChannel
  rw [updateChannel_allChannels, find?_map_updEntry_self]
  cases h : s.allChannels.find? (fun p => p.1 == name) with
  | none => rfl
  | some p =>
    have hp : p.1 = name := by
      have := List.find?_some h
      simpa using this
    simp [updEntry, hp]

theorem getChannel_updateChannel_ne (s : FMState) (name m : String) (f : Channel → Channel)
    (hnm : m ≠ name) :
    getChannel (updateChannel s name f) m = getChannel s m := by
  unfold getChannel
  rw [updateChannel_allChannels, find?_map_updEntry_ne _ _ _ _ hnm]

theorem updateChannel_activeChannels (s : FMState) (name : String) (f : Channel → Channel) :
    (updateChannel s name f).activeChannels = s.activeChannels := rfl

theorem updateChannel_trace (s : FMState) (name : String) (f : Channel → Channel) :
    (updateChannel s name f).trace = s.trace := rfl

theorem updateChannel_names (s : FMState) (name : String) (f : Channel → Channel) :
    (updateChannel s name f).allChannels.map Prod.fst = s.allChannels.map Prod.fst := by
  rw [updateChannel_allChannels, List.map_map]
  exact List.map_congr_left (fun p _ => updEntry_fst name f p)

theorem getChannel_mem (s : FMState) (name : String) (ch : Channel)
    (h : getChannel s name = some ch) : (name, ch) ∈ s.allChannels := by
  unfold getChannel at h
  cases hf : s.allChannels.find? (fun p => p.1 == name) with
  | none => rw [hf] at h; exact absurd h (by simp)
  | some p =>
    rw [hf] at h
    have hp1 : p.1 = name := by
      have := List.find?_some hf
      simpa using this
    have hp2 : p.2 = ch := by simpa using h
    have hmem := List.mem_of_find?_eq_some hf
    rwa [show (name, ch) = p by rw [← hp1, ← hp2]]

theorem getChannel_isSome_iff (s : FMState) (name : String) :
    (getChannel s name).isSome = true ↔ ∃ ch, getChannel s name = some ch := by
  cases h : getChannel s name <;> simp

/-! ### Field-level effect of `updateChannel` -/

theorem prioOf_updateChannel (s : FMState) (name : String) (f : Channel → Channel)
    (hf : ∀ c, (f c).priority = c.priority) (m : String) :
    prioOf (updateChannel s name f) m = prioOf s m := by
  unfold prioOf
  by_cases h : m = name
  · subst h
    rw [getChannel_updateChannel_self]
    cases getChannel s m with
    | none => rfl
    | some ch => simp [hf]
  · rw [getChannel_updateChannel_ne _ _ _ _ h]

theorem focusOf_updateChannel_ne (s : FMState) (name m : String) (f : Channel → Channel)
    (h : m ≠ name) : focusOf (updateChannel s name f) m = focusOf s m := by
  unfold focusOf
  rw [getChannel_updateChannel_ne _ _ _ _ h]

theorem observerOf_updateChannel (s : FMState) (name : String) (f : Channel → Channel)
    (hf : ∀ c, (f c).observer = c.observer) (m : String) :
    observerOf (updateChannel s name f) m = observerOf s m := by
  unfold observerOf
  by_cases h : m = name
  · subst h
    rw [getChannel_updateChannel_self]
    cases getChannel s m with
    | none => rfl
    | some ch => simp [hf]
  · rw [getChannel_updateChannel_ne _ _ _ _ h]

theorem focusOf_updateChannel (s : FMState) (name : String) (f : Channel → Channel)
    (hf : ∀ c, (f c).focus = c.focus) (m : String) :
    focusOf (updateChannel s name f) m = focusOf s m := by
  unfold focusOf
  by_cases h : m = name
  · subst h
    rw [getChannel_updateChannel_self]
    cases getChannel s m with
    | none => rfl
    | some ch => simp [hf]
  · rw [getChannel_updateChannel_ne _ _ _ _ h]

theorem getActivityId_updateChannel (s : FMState) (name : String) (f : Channel → Channel)
    (hf : ∀ c, (f c).activityId = c.activityId) (m : String) :
    getActivityId (updateChannel s name f) m = getActivityId s m := by
  unfold getActivityId
  by_cases h : m = name
  · subst h
    rw [getChannel_updateChannel_self]
    cases getChannel s m with
    | none => rfl
    | some ch => simp [hf]
  · rw [getChannel_updateChannel_ne _ _ _ _ h]

theorem isSome_updateChannel (s : FMState) (name : String) (f : Channel → Channel)
    (m : String) :
    (getChannel (updateChannel s name f) m).isSome = (getChannel s m).isSome := by
  by_cases h : m = name
  · subst h
    rw [getChannel_updateChannel_self]
    cases getChannel s m <;> rfl
  · rw [getChannel_updateChannel_ne _ _ _ _ h]

/-! ### Field-level effect of the Channel operations -/

theorem setActivityId_activeChannels (s : FMState) (name aid : String) :
    (setActivityId s name aid).activeChannels = s.activeChannels := rfl

theorem setActivityId_trace (s : FMState) (name aid : String) :
    (setActivityId s name aid).trace = s.trace := rfl

theorem setActivityId_names (s : FMState) (name aid : String) :
    (setActivityId s name aid).allChannels.map Prod.fst = s.allChannels.map Prod.fst :=
  updateChannel_names s name _

theorem prioOf_setActivityId (s : FMState) (name aid : String) (m : String) :
    prioOf (setActivityId s name aid) m = prioOf s m := by
  unfold setActivityId
  exact prioOf_updateChannel s name (fun c => { c with activityId := aid }) (fun _ => rfl) m

theorem focusOf_setActivityId (s : FMState) (name aid : String) (m : String) :
    focusOf (setActivityId s name aid) m = focusOf s m := by
  unfold setActivityId
  exact focusOf_updateChannel s name (fun c => { c with activityId := aid }) (fun _ => rfl) m

theorem observerOf_setActivityId (s : FMState) (name aid : String) (m : String) :
    observerOf (setActivityId s name aid) m = observerOf s m := by
  unfold setActivityId
  exact observerOf_updateChannel s name (fun c => { c with activityId := aid }) (fun _ => rfl) m

theorem isSome_setActivityId (s : FMState) (name aid : String) (m : String) :
    (getChannel (setActivityId s name aid) m).isSome = (getChannel s m).isSome :=
  isSome_updateChannel s name _ m

theorem getActivityId_setActivityId_self (s : FMState) (name aid : String)
    (h : (getChannel s name).isSome = true) :
    getActivityId (setActivityId s name aid) name = aid := by
  unfold getActivityId setActivityId
  rw [getChannel_updateChannel_self]
  obtain ⟨ch, hch⟩ := (getChannel_isSome_iff s name).mp h
  simp [hch]

theorem getActivityId_setActivityId_ne (s : FMState) (name aid m : String)
    (h : m ≠ name) :
    getActivityId (setActivityId s name aid) m = getActivityId s m := by
  unfold getActivityId setActivityId
  rw [getChannel_updateChannel_ne _ _ _ _ h]

theorem insertActive_allChannels (s : FMState) (name : String) :
    (insertActive s name).allChannels = s.allChannels := by
  unfold insertActive
  split <;> rfl

theorem insertActive_trace (s : FMState) (name : String) :
    (insertActive s name).trace = s.trace := by
  unfold insertActive
  split <;> rfl

theorem insertActive_activeChannels (s : FMState) (name : String) :
    (insertActive s name).activeChannels =
      if name ∈ s.activeChannels then s.activeChannels else name :: s.activeChannels := by
  unfold insertActive
  split <;> simp_all

theorem getChannel_insertActive (s : FMState) (name m : String) :
    getChannel (insertActive s name) m = getChannel s m := by
  unfold getChannel
  rw [insertActive_allChannels]

theorem prioOf_insertActive (s : FMState) (name m : String) :
    prioOf (insertActive s name) m = prioOf s m := by
  unfold prioOf
  rw [getChannel_insertActive]

theorem focusOf_insertActive (s : FMState) (name m : String) :
    focusOf (insertActive s name) m = focusOf s m := by
  unfold focusOf
  rw [getChannel_insertActive]

theorem observerOf_insertActive (s : FMState) (name m : String) :
    observerOf (insertActive s name) m = observerOf s m := by
  unfold observerOf
  rw [getChannel_insertActive]

theorem getActivityId_insertActive (s : FMState) (name m : String) :
    getActivityId (insertActive s name) m = getActivityId s m := by
  unfold getActivityId
  rw [getChannel_insertActive]

theorem prioOf_setTrace (s : FMState) (t : List Notification) (m : String) :
    prioOf { s with trace := t } m = prioOf s m := rfl

theorem focusOf_setTrace (s : FMState) (t : List Notification) (m : String) :
    focusOf { s with trace := t } m = focusOf s m := rfl

theorem setFocus_activeChannels (s : FMState) (name : String) (f : FocusState) :
    (setFocus s name f).activeChannels = s.activeChannels := by
  unfold setFocus
  split
  · rfl
  · split
    · rfl
    · split <;> rfl

theorem setFocus_names (s : FMState) (name : String) (f : FocusState) :
    (setFocus s name f).allChannels.map Prod.fst = s.allChannels.map Prod.fst := by
  unfold setFocus
  split
  · rfl
  · split
    · rfl
    · split
      · exact updateChannel_names s name (fun c => { c with focus := f })
      · exact updateChannel_names s name (fun c => { c with focus := f })

theorem prioOf_setFocus (s : FMState) (name : String) (f : FocusState) (m : String) :
    prioOf (setFocus s name f) m = prioOf s m := by
  unfold setFocus
  split
  · rfl
  · split
    · rfl
    · split
      · exact prioOf_updateChannel s name (fun c => { c with focus := f }) (fun _ => rfl) m
      · exact prioOf_updateChannel s name (fun c => { c with focus := f }) (fun _ => rfl) m

theorem observerOf_setFocus (s : FMState) (name : String) (f : FocusState) (m : String) :
    observerOf (setFocus s name f) m = observerOf s m := by
  unfold setFocus
  split
  · rfl
  · split
    · rfl
    · split
      · exact observerOf_updateChannel s name (fun c => { c with focus := f }) (fun _ => rfl) m
      · exact observerOf_updateChannel s name (fun c => { c with focus := f }) (fun _ => rfl) m

theorem getActivityId_setFocus (s : FMState) (name : String) (f : FocusState) (m : String) :
    getActivityId (setFocus s name f) m = getActivityId s m := by
  unfold setFocus
  split
  · rfl
  · split
    · rfl
    · split
      · exact getActivityId_updateChannel s name (fun c => { c with focus := f }) (fun _ => rfl) m
      · exact getActivityId_updateChannel s name (fun c => { c with focus := f }) (fun _ => rfl) m

theorem isSome_setFocus (s : FMState) (name : String) (f : FocusState) (m : String) :
    (getChannel (setFocus s name f) m).isSome = (getChannel s m).isSome := by
  unfold setFocus
  split
  · rfl
  · split
    · rfl
    · split
      · exact isSome_updateChannel s name (fun c => { c with focus := f }) m
      · exact isSome_updateChannel s name (fun c => { c with focus := f }) m

theorem focusOf_setFocus_ne (s : FMState) (name : String) (f : FocusState) (m : String)
    (hm : m ≠ name) : focusOf (setFocus s name f) m = focusOf s m := by
  unfold setFocus
  split
  · rfl
  · split
    · rfl
    · split
      · exact focusOf_updateChannel_ne s name m (fun c => { c with focus := f }) hm
      · exact focusOf_updateChannel_ne s name m (fun c => { c with focus := f }) hm

theorem focusOf_setFocus_self (s : FMState) (name : String) (f : FocusState)
    (h : (getChannel s name).isSome = true) : focusOf (setFocus s name f) name = f := by
  unfold setFocus
  split
  · rename_i hch
    rw [hch] at h
    exact absurd h (by simp)
  · rename_i ch hch
    split
    · rename_i hf
      simp [focusOf, hch, hf]
    · have hupd : focusOf (updateChannel s name (fun c => { c with focus := f })) name = f := by
        simp [focusOf, getChannel_updateChannel_self, hch]
      split
      · exact hupd
      · exact hupd

theorem setFocus_eq_of_none (s : FMState) (name : String) (f : FocusState)
    (hch : getChannel s name = none) : setFocus s name f = s := by
  unfold setFocus
  rw [hch]

theorem setFocus_eq_of_focus_eq (s : FMState) (name : String) (f : FocusState) (ch : Channel)
    (hch : getChannel s name = some ch) (hf : ch.focus = f) : setFocus s name f = s := by
  unfold setFocus
  simp only [hch]
  rw [if_pos hf]

theorem setFocus_trace_hit (s : FMState) (name : String) (f : FocusState) (ch : Channel)
    (o : Nat) (hch : getChannel s name = some ch) (hf : ¬ ch.focus = f)
    (ho : ch.observer = some o) :
    (setFocus s name f).trace = s.trace ++ [(name, o, f)] := by
  unfold setFocus
  simp only [hch, if_neg hf, ho]
  rw [updateChannel_trace]

theorem setFocus_trace_of_no_observer (s : FMState) (name : String) (f : FocusState)
    (ch : Channel) (hch : getChannel s name = some ch) (ho : ch.observer = none) :
    (setFocus s name f).trace = s.trace := by
  unfold setFocus
  simp only [hch]
  split
  · rfl
  · simp only [ho]
    rw [updateChannel_trace]

theorem setFocus_trace_decomp (s : FMState) (name : String) (f : FocusState) :
    ∃ t, (setFocus s name f).trace = s.trace ++ t ∧ ∀ e ∈ t, e.1 = name ∧ e.2.2 = f := by
  unfold setFocus
  split
  · exact ⟨[], by simp⟩
  · split
    · exact ⟨[], by simp⟩
    · split
      · exact ⟨[], by simp [updateChannel_trace]⟩
      · rename_i o ho
        refine ⟨[(name, o, f)], ?_, ?_⟩
        · simp [updateChannel_trace]
        · intro e he
          simp only [List.mem_singleton] at he
          subst he
          exact ⟨rfl, rfl⟩

theorem setObserver_activeChannels (s : FMState) (name : String) (obs : Option Nat) :
    (setObserver s name obs).activeChannels = s.activeChannels := by
  unfold setObserver
  split
  · rfl
  · split <;> rfl

theorem setObserver_names (s : FMState) (name : String) (obs : Option Nat) :
    (setObserver s name obs).allChannels.map Prod.fst = s.allChannels.map Prod.fst := by
  unfold setObserver
  split
  · rfl
  · split
    · rename_i o ho
      exact updateChannel_names { s with trace := s.trace ++ [(name, o, FocusState.NONE)] }
        name (fun c => { c with observer := obs })
    · exact updateChannel_names s name (fun c => { c with observer := obs })

theorem prioOf_setObserver (s : FMState) (name : String) (obs : Option Nat) (m : String) :
    prioOf (setObserver s name obs) m = prioOf s m := by
  unfold setObserver
  split
  · rfl
  · split
    · rename_i o ho
      exact prioOf_updateChannel { s with trace := s.trace ++ [(name, o, FocusState.NONE)] }
        name (fun c => { c with observer := obs }) (fun _ => rfl) m
    · exact prioOf_updateChannel s name (fun c => { c with observer := obs }) (fun _ => rfl) m

theorem focusOf_setObserver (s : FMState) (name : String) (obs : Option Nat) (m : String) :
    focusOf (setObserver s name obs) m = focusOf s m := by
  unfold setObserver
  split
  · rfl
  · split
    · rename_i o ho
      exact focusOf_updateChannel { s with trace := s.trace ++ [(name, o, FocusState.NONE)] }
        name (fun c => { c with observer := obs }) (fun _ => rfl) m
    · exact focusOf_updateChannel s name (fun c => { c with observer := obs }) (fun _ => rfl) m

theorem getActivityId_setObserver (s : FMState) (name : String) (obs : Option Nat) (m : String) :
    getActivityId (setObserver s name obs) m = getActivityId s m := by
  unfold setObserver
  split
  · rfl
  · split
    · rename_i o ho
      exact getActivityId_updateChannel { s with trace := s.trace ++ [(name, o, FocusState.NONE)] }
        name (fun c => { c with observer := obs }) (fun _ => rfl) m
    · exact getActivityId_updateChannel s name (fun c => { c with observer := obs }) (fun _ => rfl) m

theorem isSome_setObserver (s : FMState) (name : String) (obs : Option Nat) (m : String) :
    (getChannel (setObserver s name obs) m).isSome = (getChannel s m).isSome := by
  unfold setObserver
  split
  · rfl
  · split
    · rename_i o ho
      exact isSome_updateChannel { s with trace := s.trace ++ [(name, o, FocusState.NONE)] }
        name (fun c => { c with observer := obs }) m
    · exact isSome_updateChannel s name (fun c => { c with observer := obs }) m

theorem observerOf_setObserver_self (s : FMState) (name : String) (obs : Option Nat)
    (h : (getChannel s name).isSome = true) :
    observerOf (setObserver s name obs) name = obs := by
  obtain ⟨ch, hch⟩ := (getChannel_isSome_iff s name).mp h
  unfold setObserver
  simp only [hch]
  split
  · rename_i o ho
    have : getChannel { s with trace := s.trace ++ [(name, o, FocusState.NONE)] } name
        = some ch := hch
    simp [observerOf, getChannel_updateChannel_self, this]
  · simp [observerOf, getChannel_updateChannel_self, hch]

theorem observerOf_setObserver_ne (s : FMState) (name : String) (obs : Option Nat) (m : String)
    (hm : m ≠ name) : observerOf (setObserver s name obs) m = observerOf s m := by
  unfold setObserver
  split
  · rfl
  · split
    · rename_i o ho
      show observerOf (updateChannel { s with trace := s.trace ++ [(name, o, FocusState.NONE)] }
        name (fun c => { c with observer := obs })) m = observerOf s m
      unfold observerOf
      rw [getChannel_updateChannel_ne _ _ _ _ hm]
      rfl
    · show observerOf (updateChannel s name (fun c => { c with observer := obs })) m
        = observerOf s m
      unfold observerOf
      rw [getChannel_updateChannel_ne _ _ _ _ hm]

theorem setObserver_eq_of_none (s : FMState) (name : String) (obs : Option Nat)
    (hch : getChannel s name = none) : setObserver s name obs = s := by
  unfold setObserver
  rw [hch]

theorem setObserver_trace_decomp (s : FMState) (name : String) (obs : Option Nat) :
    ∃ t, (setObserver s name obs).trace = s.trace ++ t ∧
      ∀ e ∈ t, e.1 = name ∧ e.2.2 = FocusState.NONE := by
  unfold setObserver
  split
  · exact ⟨[], by simp⟩
  · split
    · rename_i o ho
      refine ⟨[(name, o, FocusState.NONE)], ?_, ?_⟩
      · simp [updateChannel_trace]
      · intro e he
        simp only [List.mem_singleton] at he
        subst he
        exact ⟨rfl, rfl⟩
    · exact ⟨[], by simp [updateChannel_trace]⟩

theorem setObserver_trace_of_no_observer (s : FMState) (name : String) (obs : Option Nat)
    (ch : Channel) (hch : getChannel s name = some ch) (ho : ch.observer = none) :
    (setObserver s name obs).trace = s.trace := by
  unfold setObserver
  simp only [hch, ho]
  rw [updateChannel_trace]

/-! ### The minimum-priority element of the active set -/

theorem listArgmin_eq_foldl (p : String → Nat) (l : List String) :
    listArgmin p l = l.foldl (argminStep p) none := rfl

theorem foldl_argmin_isSome (p : String → Nat) :
    ∀ (l : List String) (b : String), (l.foldl (argminStep p) (some b)).isSome = true := by
  intro l
  induction l with
  | nil => intro b; rfl
  | cons c l ih =>
    intro b
    by_cases h : p c < p b
    · simpa [argminStep, h] using ih c
    · simpa [argminStep, h] using ih b

theorem listArgmin_none_iff (p : String → Nat) (l : List String) :
    listArgmin p l = none ↔ l = [] := by
  cases l with
  | nil => simp [listArgmin]
  | cons c l =>
    rw [listArgmin_eq_foldl]
    constructor
    · intro h
      have hs := foldl_argmin_isSome p l c
      rw [show (c :: l).foldl (argminStep p) none = l.foldl (argminStep p) (some c) from rfl]
        at h
      rw [h] at hs
      exact absurd hs (by simp)
    · intro h
      exact absurd h (by simp)

theorem foldl_argmin_mem (p : String → Nat) :
    ∀ (l : List String) (acc : Option String) (t : String),
      l.foldl (argminStep p) acc = some t → acc = some t ∨ t ∈ l := by
  intro l
  induction l with
  | nil => intro acc t h; exact Or.inl h
  | cons c l ih =>
    intro acc t h
    rw [List.foldl_cons] at h
    rcases ih (argminStep p acc c) t h with h' | h'
    · cases acc with
      | none =>
        have : c = t := by simpa [argminStep] using h'
        exact Or.inr (by simp [this])
      | some b =>
        by_cases hcb : p c < p b
        · have : c = t := by simpa [argminStep, hcb] using h'
          exact Or.inr (by simp [this])
        · have : b = t := by simpa [argminStep, hcb] using h'
          exact Or.inl (by simp [this])
    · exact Or.inr (List.mem_cons_of_mem c h')

theorem foldl_argmin_le (p : String → Nat) :
    ∀ (l : List String) (b t : String),
      l.foldl (argminStep p) (some b) = some t → p t ≤ p b ∧ ∀ c ∈ l, p t ≤ p c := by
  intro l
  induction l with
  | nil =>
    intro b t h
    have hb : b = t := by simpa using h
    subst hb
    exact ⟨le_refl _, by simp⟩
  | cons c l ih =>
    intro b t h
    rw [List.foldl_cons] at h
    by_cases hcb : p c < p b
    · rw [show argminStep p (some b) c = some c by simp [argminStep, hcb]] at h
      obtain ⟨h1, h2⟩ := ih c t h
      refine ⟨le_trans h1 (le_of_lt hcb), ?_⟩
      intro d hd
      rcases List.mem_cons.mp hd with hd | hd
      · rw [hd]; exact h1
      · exact h2 d hd
    · rw [show argminStep p (some b) c = some b by simp [argminStep, hcb]] at h
      obtain ⟨h1, h2⟩ := ih b t h
      refine ⟨h1, ?_⟩
      intro d hd
      rcases List.mem_cons.mp hd with hd | hd
      · rw [hd]; exact le_trans h1 (Nat.le_of_not_lt hcb)
      · exact h2 d hd

theorem listArgmin_mem (p : String → Nat) (l : List String) (t : String)
    (h : listArgmin p l = some t) : t ∈ l := by
  cases l with
  | nil => exact absurd h (by simp [listArgmin])
  | cons c l =>
    rw [listArgmin_eq_foldl,
      show (c :: l).foldl (argminStep p) none = l.foldl (argminStep p) (some c) from rfl] at h
    rcases foldl_argmin_mem p l (some c) t h with h' | h'
    · have : c = t := by simpa using h'
      simp [this]
    · exact List.mem_cons_of_mem c h'

theorem listArgmin_le (p : String → Nat) (l : List String) (t : String)
    (h : listArgmin p l = some t) : ∀ c ∈ l, p t ≤ p c := by
  cases l with
  | nil => simp
  | cons c l =>
    rw [listArgmin_eq_foldl,
      show (c :: l).foldl (argminStep p) none = l.foldl (argminStep p) (some c) from rfl] at h
    obtain ⟨h1, h2⟩ := foldl_argmin_le p l c t h
    intro d hd
    rcases List.mem_cons.mp hd with hd | hd
    · rw [hd]; exact h1
    · exact h2 d hd

theorem foldl_argmin_stays (p : String → Nat) :
    ∀ (l : List String) (b : String), (∀ d ∈ l, ¬ p d < p b) →
      l.foldl (argminStep p) (some b) = some b := by
  intro l
  induction l with
  | nil => intro b _; rfl
  | cons c l ih =>
    intro b hb
    rw [List.foldl_cons,
      show argminStep p (some b) c = some b by simp [argminStep, hb c (by simp)]]
    exact ih b (fun d hd => hb d (List.mem_cons_of_mem c hd))

theorem foldl_argmin_strict (p : String → Nat) :
    ∀ (l : List String) (b t : String), (p t < p b ∨ b = t) →
      (∀ d ∈ l, d ≠ t → p t < p d) → (t ∈ l ∨ b = t) →
      l.foldl (argminStep p) (some b) = some t := by
  intro l
  induction l with
  | nil =>
    intro b t _ _ hmem
    rcases hmem with hmem | hmem
    · exact absurd hmem (by simp)
    · rw [hmem]
      rfl
  | cons c l ih =>
    intro b t hb hdom hmem
    rw [List.foldl_cons]
    by_cases hct : c = t
    · subst hct
      have hacc : argminStep p (some b) c = some c := by
        rcases hb with hb | hb
        · simp [argminStep, hb]
        · subst hb
          simp [argminStep]
      rw [hacc]
      exact foldl_argmin_stays p l c (fun d hd => by
        by_cases hdc : d = c
        · subst hdc; simp
        · exact Nat.not_lt.mpr (le_of_lt (hdom d (List.mem_cons_of_mem c hd) hdc)))
    · have hc : p t < p c := hdom c (by simp) hct
      have hmem' : t ∈ l ∨ b = t := by
        rcases hmem with hmem | hmem
        · rcases List.mem_cons.mp hmem with hmem | hmem
          · exact absurd hmem.symm hct
          · exact Or.inl hmem
        · exact Or.inr hmem
      by_cases hcb : p c < p b
      · rw [show argminStep p (some b) c = some c by simp [argminStep, hcb]]
        rcases hmem' with htl | hbt
        · exact ih c t (Or.inl hc) (fun d hd => hdom d (List.mem_cons_of_mem c hd)) (Or.inl htl)
        · subst hbt
          exact absurd hcb (Nat.lt_asymm hc)
      · rw [show argminStep p (some b) c = some b by simp [argminStep, hcb]]
        exact ih b t hb (fun d hd => hdom d (List.mem_cons_of_mem c hd)) hmem'

theorem listArgmin_strict (p : String → Nat) (l : List String) (t : String)
    (hmem : t ∈ l) (hdom : ∀ d ∈ l, d ≠ t → p t < p d) :
    listArgmin p l = some t := by
  cases l with
  | nil => exact absurd hmem (by simp)
  | cons c l =>
    rw [listArgmin_eq_foldl,
      show (c :: l).foldl (argminStep p) none = l.foldl (argminStep p) (some c) from rfl]
    by_cases hct : c = t
    · exact foldl_argmin_strict p l c t (Or.inr hct)
        (fun d hd => hdom d (List.mem_cons_of_mem c hd)) (Or.inr hct)
    · have hmem' : t ∈ l := by
        rcases List.mem_cons.mp hmem with h | h
        · exact absurd h.symm hct
        · exact h
      exact foldl_argmin_strict p l c t (Or.inl (hdom c (by simp) hct))
        (fun d hd => hdom d (List.mem_cons_of_mem c hd)) (Or.inl hmem')

theorem topActive_mem (s : FMState) (t : String) (h : topActive s = some t) :
    t ∈ s.activeChannels :=
  listArgmin_mem (prioOf s) s.activeChannels t h

theorem topActive_le (s : FMState) (t : String) (h : topActive s = some t) :
    ∀ c ∈ s.activeChannels, prioOf s t ≤ prioOf s c :=
  listArgmin_le (prioOf s) s.activeChannels t h

theorem topActive_none_iff (s : FMState) :
    topActive s = none ↔ s.activeChannels = [] :=
  listArgmin_none_iff (prioOf s) s.activeChannels

theorem topActive_congr (s' s : FMState) (hp : ∀ c, prioOf s' c = prioOf s c)
    (ha : s'.activeChannels = s.activeChannels) : topActive s' = topActive s := by
  unfold topActive
  rw [ha]
  congr 1
  funext c
  exact hp c

/-! ### Trace bookkeeping -/

theorem lastDelivered_congr (s' s : FMState) (c : String) (o : Nat) (t : List Notification)
    (h : s'.trace = s.trace ++ t) (hmiss : ∀ e ∈ t, e.1 ≠ c ∨ e.2.1 ≠ o) :
    lastDelivered s' c o = lastDelivered s c o := by
  unfold lastDelivered
  rw [h, List.filter_append]
  rw [show t.filter (fun e => e.1 == c && e.2.1 == o) = [] by
    rw [List.filter_eq_nil_iff]
    intro e he
    rcases hmiss e he with hm | hm <;> simp [hm]]
  rw [List.append_nil]

theorem lastDelivered_last_hit (s' s : FMState) (c : String) (o : Nat) (f : FocusState)
    (t2 : List Notification) (h : s'.trace = s.trace ++ [(c, o, f)] ++ t2)
    (hmiss : ∀ e ∈ t2, e.1 ≠ c ∨ e.2.1 ≠ o) :
    lastDelivered s' c o = some f := by
  unfold lastDelivered
  rw [h, List.filter_append, List.filter_append]
  rw [show t2.filter (fun e => e.1 == c && e.2.1 == o) = [] by
    rw [List.filter_eq_nil_iff]
    intro e he
    rcases hmiss e he with hm | hm <;> simp [hm]]
  rw [List.append_nil,
    show ([((c, o, f) : Notification)].filter (fun e => e.1 == c && e.2.1 == o))
      = [(c, o, f)] by simp,
    List.getLast?_concat]
  rfl

/-! ### Priority-map preservation -/

theorem updateChannel_prios (s : FMState) (name : String) (f : Channel → Channel)
    (hf : ∀ c, (f c).priority = c.priority) :
    (updateChannel s name f).allChannels.map (fun p => p.2.priority)
      = s.allChannels.map (fun p => p.2.priority) := by
  rw [updateChannel_allChannels, List.map_map]
  refine List.map_congr_left (fun p _ => ?_)
  simp only [Function.comp_apply, updEntry]
  split <;> simp [hf]

theorem setActivityId_prios (s : FMState) (name aid : String) :
    (setActivityId s name aid).allChannels.map (fun p => p.2.priority)
      = s.allChannels.map (fun p => p.2.priority) :=
  updateChannel_prios s name (fun c => { c with activityId := aid }) (fun _ => rfl)

theorem setFocus_prios (s : FMState) (name : String) (f : FocusState) :
    (setFocus s name f).allChannels.map (fun p => p.2.priority)
      = s.allChannels.map (fun p => p.2.priority) := by
  unfold setFocus
  split
  · rfl
  · split
    · rfl
    · split
      · exact updateChannel_prios s name (fun c => { c with focus := f }) (fun _ => rfl)
      · exact updateChannel_prios s name (fun c => { c with focus := f }) (fun _ => rfl)

theorem setObserver_prios (s : FMState) (name : String) (obs : Option Nat) :
    (setObserver s name obs).allChannels.map (fun p => p.2.priority)
      = s.allChannels.map (fun p => p.2.priority) := by
  unfold setObserver
  split
  · rfl
  · split
    · rename_i o ho
      exact updateChannel_prios { s with trace := s.trace ++ [(name, o, FocusState.NONE)] }
        name (fun c => { c with observer := obs }) (fun _ => rfl)
    · exact updateChannel_prios s name (fun c => { c with observer := obs }) (fun _ => rfl)

/-! ### The state invariant -/

theorem prio_inj (s : FMState)
    (hpn : (s.allChannels.map (fun p => p.2.priority)).Nodup)
    (c d : String) (ch ch' : Channel) (hc : getChannel s c = some ch)
    (hd : getChannel s d = some ch') (hcd : c ≠ d) : ch.priority ≠ ch'.priority := by
  intro heq
  have hmc := getChannel_mem s c ch hc
  have hmd := getChannel_mem s d ch' hd
  have hpair := List.inj_on_of_nodup_map hpn hmc hmd (by simpa using heq)
  exact hcd (congrArg Prod.fst hpair)

theorem prioOf_eq_of_getChannel (s : FMState) (c : String) (ch : Channel)
    (hc : getChannel s c = some ch) : prioOf s c = ch.priority := by
  unfold prioOf
  rw [hc]

theorem top_strict (s : FMState) (inv : FMInv s) (t : String) (ht : topActive s = some t) :
    ∀ c ∈ s.activeChannels, c ≠ t → prioOf s t < prioOf s c := by
  intro c hc hct
  have hle := topActive_le s t ht c hc
  have htm := topActive_mem s t ht
  obtain ⟨cht, hcht⟩ := (getChannel_isSome_iff s t).mp (inv.active_reg t htm)
  obtain ⟨chc, hchc⟩ := (getChannel_isSome_iff s c).mp (inv.active_reg c hc)
  have hne : prioOf s t ≠ prioOf s c := by
    rw [prioOf_eq_of_getChannel s t cht hcht, prioOf_eq_of_getChannel s c chc hchc]
    exact prio_inj s inv.prios_nodup t c cht chc hcht hchc (fun h => hct h.symm)
  exact lt_of_le_of_ne hle hne

theorem active_focus_ne_none (s : FMState) (inv : FMInv s) (c : String)
    (hc : c ∈ s.activeChannels) : focusOf s c ≠ FocusState.NONE := by
  cases ht : topActive s with
  | none =>
    rw [topActive_none_iff] at ht
    rw [ht] at hc
    exact absurd hc (by simp)
  | some t =>
    by_cases hct : c = t
    · subst hct
      rw [inv.top_fg c ht]
      simp
    · rw [inv.rest_bg c hc (fun h => hct (by rw [ht] at h; exact (Option.some.injEq _ _).mp h.symm))]
      simp

theorem erase_keeps_top (s : FMState) (inv : FMInv s) (t c : String)
    (ht : topActive s = some t) (hct : t ≠ c) :
    listArgmin (prioOf s) (s.activeChannels.erase c) = some t := by
  apply listArgmin_strict
  · exact (List.mem_erase_of_ne hct).mpr (topActive_mem s t ht)
  · intro d hd hdt
    exact top_strict s inv t ht d (List.mem_of_mem_erase hd) hdt

/-! ### The acquire task, step by step -/

theorem acqPre_active (s : FMState) (name : String) (obs : Option Nat) (aid : String) :
    (setObserver (insertActive (setActivityId s name aid) name) name obs).activeChannels
      = if name ∈ s.activeChannels then s.activeChannels else name :: s.activeChannels := by
  rw [setObserver_activeChannels, insertActive_activeChannels, setActivityId_activeChannels]

theorem acqPre_prioOf (s : FMState) (name : String) (obs : Option Nat) (aid : String)
    (m : String) :
    prioOf (setObserver (insertActive (setActivityId s name aid) name) name obs) m
      = prioOf s m := by
  rw [prioOf_setObserver, prioOf_insertActive, prioOf_setActivityId]

theorem acqPre_isSome (s : FMState) (name : String) (obs : Option Nat) (aid : String)
    (m : String) :
    (getChannel (setObserver (insertActive (setActivityId s name aid) name) name obs) m).isSome
      = (getChannel s m).isSome := by
  rw [isSome_setObserver, getChannel_insertActive, isSome_setActivityId]

theorem acqPre_focusOf (s : FMState) (name : String) (obs : Option Nat) (aid : String)
    (m : String) :
    focusOf (setObserver (insertActive (setActivityId s name aid) name) name obs) m
      = focusOf s m := by
  rw [focusOf_setObserver, focusOf_insertActive, focusOf_setActivityId]

theorem acqPre_observer_self (s : FMState) (name : String) (obs : Option Nat) (aid : String)
    (hreg : (getChannel s name).isSome = true) :
    observerOf (setObserver (insertActive (setActivityId s name aid) name) name obs) name
      = obs := by
  apply observerOf_setObserver_self
  rw [getChannel_insertActive, isSome_setActivityId]
  exact hreg

theorem acqPre_observer_ne (s : FMState) (name : String) (obs : Option Nat) (aid : String)
    (m : String) (hm : m ≠ name) :
    observerOf (setObserver (insertActive (setActivityId s name aid) name) name obs) m
      = observerOf s m := by
  rw [observerOf_setObserver_ne _ _ _ _ hm, observerOf_insertActive, observerOf_setActivityId]

theorem acqPre_aid_self (s : FMState) (name : String) (obs : Option Nat) (aid : String)
    (hreg : (getChannel s name).isSome = true) :
    getActivityId (setObserver (insertActive (setActivityId s name aid) name) name obs) name
      = aid := by
  rw [getActivityId_setObserver, getActivityId_insertActive]
  exact getActivityId_setActivityId_self s name aid hreg

theorem acqPre_aid_ne (s : FMState) (name : String) (obs : Option Nat) (aid : String)
    (m : String) (hm : m ≠ name) :
    getActivityId (setObserver (insertActive (setActivityId s name aid) name) name obs) m
      = getActivityId s m := by
  rw [getActivityId_setObserver, getActivityId_insertActive,
    getActivityId_setActivityId_ne s name aid m hm]

theorem acqPre_names (s : FMState) (name : String) (obs : Option Nat) (aid : String) :
    (setObserver (insertActive (setActivityId s name aid) name) name obs).allChannels.map
        Prod.fst = s.allChannels.map Prod.fst := by
  rw [setObserver_names, insertActive_allChannels, setActivityId_names]

theorem acqPre_prios (s : FMState) (name : String) (obs : Option Nat) (aid : String) :
    (setObserver (insertActive (setActivityId s name aid) name) name obs).allChannels.map
        (fun p => p.2.priority) = s.allChannels.map (fun p => p.2.priority) := by
  rw [setObserver_prios, insertActive_allChannels, setActivityId_prios]

theorem acqPre_trace (s : FMState) (name : String) (obs : Option Nat) (aid : String) :
    ∃ t, (setObserver (insertActive (setActivityId s name aid) name) name obs).trace
        = s.trace ++ t ∧ ∀ e ∈ t, e.1 = name ∧ e.2.2 = FocusState.NONE := by
  obtain ⟨t, h1, h2⟩ :=
    setObserver_trace_decomp (insertActive (setActivityId s name aid) name) name obs
  rw [insertActive_trace, setActivityId_trace] at h1
  exact ⟨t, h1, h2⟩

theorem acq_active (s : FMState) (name : String) (obs : Option Nat) (aid : String) :
    (acquireChannelHelper s name obs aid).activeChannels
      = if name ∈ s.activeChannels then s.activeChannels else name :: s.activeChannels := by
  unfold acquireChannelHelper
  cases hfg : topActive s with
  | none =>
    simp only [hfg]
    rw [setFocus_activeChannels]
    exact acqPre_active s name obs aid
  | some f =>
    simp only [hfg]
    by_cases hf : f = name
    · rw [if_pos hf, setFocus_activeChannels]
      exact acqPre_active s name obs aid
    · rw [if_neg hf]
      by_cases hw : prioOf s name < prioOf s f
      · rw [if_pos hw, setFocus_activeChannels, setFocus_activeChannels]
        exact acqPre_active s name obs aid
      · rw [if_neg hw, setFocus_activeChannels]
        exact acqPre_active s name obs aid

theorem acq_prioOf (s : FMState) (name : String) (obs : Option Nat) (aid : String)
    (m : String) : prioOf (acquireChannelHelper s name obs aid) m = prioOf s m := by
  unfold acquireChannelHelper
  cases hfg : topActive s with
  | none =>
    simp only [hfg]
    rw [prioOf_setFocus]
    exact acqPre_prioOf s name obs aid m
  | some f =>
    simp only [hfg]
    by_cases hf : f = name
    · rw [if_pos hf, prioOf_setFocus]
      exact acqPre_prioOf s name obs aid m
    · rw [if_neg hf]
      by_cases hw : prioOf s name < prioOf s f
      · rw [if_pos hw, prioOf_setFocus, prioOf_setFocus]
        exact acqPre_prioOf s name obs aid m
      · rw [if_neg hw, prioOf_setFocus]
        exact acqPre_prioOf s name obs aid m

theorem acq_isSome (s : FMState) (name : String) (obs : Option Nat) (aid : String)
    (m : String) :
    (getChannel (acquireChannelHelper s name obs aid) m).isSome
      = (getChannel s m).isSome := by
  unfold acquireChannelHelper
  cases hfg : topActive s with
  | none =>
    simp only [hfg]
    rw [isSome_setFocus]
    exact acqPre_isSome s name obs aid m
  | some f =>
    simp only [hfg]
    by_cases hf : f = name
    · rw [if_pos hf, isSome_setFocus]
      exact acqPre_isSome s name obs aid m
    · rw [if_neg hf]
      by_cases hw : prioOf s name < prioOf s f
      · rw [if_pos hw, isSome_setFocus, isSome_setFocus]
        exact acqPre_isSome s name obs aid m
      · rw [if_neg hw, isSome_setFocus]
        exact acqPre_isSome s name obs aid m

theorem acq_names (s : FMState) (name : String) (obs : Option Nat) (aid : String) :
    (acquireChannelHelper s name obs aid).allChannels.map Prod.fst
      = s.allChannels.map Prod.fst := by
  unfold acquireChannelHelper
  cases hfg : topActive s with
  | none =>
    simp only [hfg]
    rw [setFocus_names]
    exact acqPre_names s name obs aid
  | some f =>
    simp only [hfg]
    by_cases hf : f = name
    · rw [if_pos hf, setFocus_names]
      exact acqPre_names s name obs aid
    · rw [if_neg hf]
      by_cases hw : prioOf s name < prioOf s f
      · rw [if_pos hw, setFocus_names, setFocus_names]
        exact acqPre_names s name obs aid
      · rw [if_neg hw, setFocus_names]
        exact acqPre_names s name obs aid

theorem acq_prios (s : FMState) (name : String) (obs : Option Nat) (aid : String) :
    (acquireChannelHelper s name obs aid).allChannels.map (fun p => p.2.priority)
      = s.allChannels.map (fun p => p.2.priority) := by
  unfold acquireChannelHelper
  cases hfg : topActive s with
  | none =>
    simp only [hfg]
    rw [setFocus_prios]
    exact acqPre_prios s name obs aid
  | some f =>
    simp only [hfg]
    by_cases hf : f = name
    · rw [if_pos hf, setFocus_prios]
      exact acqPre_prios s name obs aid
    · rw [if_neg hf]
      by_cases hw : prioOf s name < prioOf s f
      · rw [if_pos hw, setFocus_prios, setFocus_prios]
        exact acqPre_prios s name obs aid
      · rw [if_neg hw, setFocus_prios]
        exact acqPre_prios s name obs aid

theorem acq_observer_self (s : FMState) (name : String) (obs : Option Nat) (aid : String)
    (hreg : (getChannel s name).isSome = true) :
    observerOf (acquireChannelHelper s name obs aid) name = obs := by
  unfold acquireChannelHelper
  cases hfg : topActive s with
  | none =>
    simp only [hfg]
    rw [observerOf_setFocus]
    exact acqPre_observer_self s name obs aid hreg
  | some f =>
    simp only [hfg]
    by_cases hf : f = name
    · rw [if_pos hf, observerOf_setFocus]
      exact acqPre_observer_self s name obs aid hreg
    · rw [if_neg hf]
      by_cases hw : prioOf s name < prioOf s f
      · rw [if_pos hw, observerOf_setFocus, observerOf_setFocus]
        exact acqPre_observer_self s name obs aid hreg
      · rw [if_neg hw, observerOf_setFocus]
        exact acqPre_observer_self s name obs aid hreg

theorem acq_observer_ne (s : FMState) (name : String) (obs : Option Nat) (aid : String)
    (m : String) (hm : m ≠ name) :
    observerOf (acquireChannelHelper s name obs aid) m = observerOf s m := by
  unfold acquireChannelHelper
  cases hfg : topActive s with
  | none =>
    simp only [hfg]
    rw [observerOf_setFocus]
    exact acqPre_observer_ne s name obs aid m hm
  | some f =>
    simp only [hfg]
    by_cases hf : f = name
    · rw [if_pos hf, observerOf_setFocus]
      exact acqPre_observer_ne s name obs aid m hm
    · rw [if_neg hf]
      by_cases hw : prioOf s name < prioOf s f
      · rw [if_pos hw, observerOf_setFocus, observerOf_setFocus]
        exact acqPre_observer_ne s name obs aid m hm
      · rw [if_neg hw, observerOf_setFocus]
        exact acqPre_observer_ne s name obs aid m hm

theorem acq_aid_self (s : FMState) (name : String) (obs : Option Nat) (aid : String)
    (hreg : (getChannel s name).isSome = true) :
    getActivityId (acquireChannelHelper s name obs aid) name = aid := by
  unfold acquireChannelHelper
  cases hfg : topActive s with
  | none =>
    simp only [hfg]
    rw [getActivityId_setFocus]
    exact acqPre_aid_self s name obs aid hreg
  | some f =>
    simp only [hfg]
    by_cases hf : f = name
    · rw [if_pos hf, getActivityId_setFocus]
      exact acqPre_aid_self s name obs aid hreg
    · rw [if_neg hf]
      by_cases hw : prioOf s name < prioOf s f
      · rw [if_pos hw, getActivityId_setFocus, getActivityId_setFocus]
        exact acqPre_aid_self s name obs aid hreg
      · rw [if_neg hw, getActivityId_setFocus]
        exact acqPre_aid_self s name obs aid hreg

theorem acq_aid_ne (s : FMState) (name : String) (obs : Option Nat) (aid : String)
    (m : String) (hm : m ≠ name) :
    getActivityId (acquireChannelHelper s name obs aid) m = getActivityId s m := by
  unfold acquireChannelHelper
  cases hfg : topActive s with
  | none =>
    simp only [hfg]
    rw [getActivityId_setFocus]
    exact acqPre_aid_ne s name obs aid m hm
  | some f =>
    simp only [hfg]
    by_cases hf : f = name
    · rw [if_pos hf, getActivityId_setFocus]
      exact acqPre_aid_ne s name obs aid m hm
    · rw [if_neg hf]
      by_cases hw : prioOf s name < prioOf s f
      · rw [if_pos hw, getActivityId_setFocus, getActivityId_setFocus]
        exact acqPre_aid_ne s name obs aid m hm
      · rw [if_neg hw, getActivityId_setFocus]
        exact acqPre_aid_ne s name obs aid m hm

theorem acq_none_focus (s : FMState) (name : String) (obs : Option Nat) (aid : String)
    (hfg : topActive s = none) (hreg : (getChannel s name).isSome = true) :
    focusOf (acquireChannelHelper s name obs aid) name = FocusState.FOREGROUND ∧
    ∀ m, m ≠ name → focusOf (acquireChannelHelper s name obs aid) m = focusOf s m := by
  unfold acquireChannelHelper
  simp only [hfg]
  constructor
  · apply focusOf_setFocus_self
    rw [acqPre_isSome]
    exact hreg
  · intro m hm
    rw [focusOf_setFocus_ne _ _ _ _ hm]
    exact acqPre_focusOf s name obs aid m

theorem acq_selftop_focus (s : FMState) (name : String) (obs : Option Nat) (aid : String)
    (hfg : topActive s = some name) (hreg : (getChannel s name).isSome = true) :
    focusOf (acquireChannelHelper s name obs aid) name = FocusState.FOREGROUND ∧
    ∀ m, m ≠ name → focusOf (acquireChannelHelper s name obs aid) m = focusOf s m := by
  unfold acquireChannelHelper
  simp only [hfg, eq_self_iff_true, if_true]
  constructor
  · apply focusOf_setFocus_self
    rw [acqPre_isSome]
    exact hreg
  · intro m hm
    rw [focusOf_setFocus_ne _ _ _ _ hm]
    exact acqPre_focusOf s name obs aid m

theorem acq_win_focus (s : FMState) (name : String) (obs : Option Nat) (aid : String)
    (f : String) (hfg : topActive s = some f) (hf : ¬ f = name)
    (hw : prioOf s name < prioOf s f) (hreg : (getChannel s name).isSome = true)
    (hfreg : (getChannel s f).isSome = true) :
    focusOf (acquireChannelHelper s name obs aid) name = FocusState.FOREGROUND ∧
    focusOf (acquireChannelHelper s name obs aid) f = FocusState.BACKGROUND ∧
    ∀ m, m ≠ name → m ≠ f → focusOf (acquireChannelHelper s name obs aid) m = focusOf s m := by
  unfold acquireChannelHelper
  simp only [hfg, if_neg hf, if_pos hw]
  refine ⟨?_, ?_, ?_⟩
  · apply focusOf_setFocus_self
    rw [isSome_setFocus, acqPre_isSome]
    exact hreg
  · rw [focusOf_setFocus_ne _ _ _ _ hf]
    apply focusOf_setFocus_self
    rw [acqPre_isSome]
    exact hfreg
  · intro m hm hmf
    rw [focusOf_setFocus_ne _ _ _ _ hm, focusOf_setFocus_ne _ _ _ _ hmf]
    exact acqPre_focusOf s name obs aid m

theorem acq_lose_focus (s : FMState) (name : String) (obs : Option Nat) (aid : String)
    (f : String) (hfg : topActive s = some f) (hf : ¬ f = name)
    (hw : ¬ prioOf s name < prioOf s f) (hreg : (getChannel s name).isSome = true) :
    focusOf (acquireChannelHelper s name obs aid) name = FocusState.BACKGROUND ∧
    ∀ m, m ≠ name → focusOf (acquireChannelHelper s name obs aid) m = focusOf s m := by
  unfold acquireChannelHelper
  simp only [hfg, if_neg hf, if_neg hw]
  constructor
  · apply focusOf_setFocus_self
    rw [acqPre_isSome]
    exact hreg
  · intro m hm
    rw [focusOf_setFocus_ne _ _ _ _ hm]
    exact acqPre_focusOf s name obs aid m

theorem acq_trace (s : FMState) (name : String) (obs : Option Nat) (aid : String) :
    ∃ t, (acquireChannelHelper s name obs aid).trace = s.trace ++ t ∧
      ∀ e ∈ t, e.1 = name ∨ topActive s = some e.1 := by
  unfold acquireChannelHelper
  cases hfg : topActive s with
  | none =>
    simp only [hfg]
    obtain ⟨t1, h1, hi1⟩ := acqPre_trace s name obs aid
    obtain ⟨t2, h2, hi2⟩ :=
      setFocus_trace_decomp (setObserver (insertActive (setActivityId s name aid) name)
        name obs) name FocusState.FOREGROUND
    refine ⟨t1 ++ t2, ?_, ?_⟩
    · rw [h2, h1, List.append_assoc]
    · intro e he
      rcases List.mem_append.mp he with he | he
      · exact Or.inl (hi1 e he).1
      · exact Or.inl (hi2 e he).1
  | some f =>
    simp only [hfg]
    by_cases hf : f = name
    · rw [if_pos hf]
      obtain ⟨t1, h1, hi1⟩ := acqPre_trace s name obs aid
      obtain ⟨t2, h2, hi2⟩ :=
        setFocus_trace_decomp (setObserver (insertActive (setActivityId s name aid) name)
          name obs) name FocusState.FOREGROUND
      refine ⟨t1 ++ t2, ?_, ?_⟩
      · rw [h2, h1, List.append_assoc]
      · intro e he
        rcases List.mem_append.mp he with he | he
        · exact Or.inl (hi1 e he).1
        · exact Or.inl (hi2 e he).1
    · rw [if_neg hf]
      by_cases hw : prioOf s name < prioOf s f
      · rw [if_pos hw]
        obtain ⟨t1, h1, hi1⟩ := acqPre_trace s name obs aid
        obtain ⟨t2, h2, hi2⟩ :=
          setFocus_trace_decomp (setObserver (insertActive (setActivityId s name aid) name)
            name obs) f FocusState.BACKGROUND
        obtain ⟨t3, h3, hi3⟩ :=
          setFocus_trace_decomp (setFocus (setObserver (insertActive
            (setActivityId s name aid) name) name obs) f FocusState.BACKGROUND)
            name FocusState.FOREGROUND
        refine ⟨t1 ++ t2 ++ t3, ?_, ?_⟩
        · rw [h3, h2, h1]
          simp [List.append_assoc]
        · intro e he
          rcases List.mem_append.mp he with he | he
          · rcases List.mem_append.mp he with he | he
            · exact Or.inl (hi1 e he).1
            · exact Or.inr (by rw [(hi2 e he).1])
          · exact Or.inl (hi3 e he).1
      · rw [if_neg hw]
        obtain ⟨t1, h1, hi1⟩ := acqPre_trace s name obs aid
        obtain ⟨t2, h2, hi2⟩ :=
          setFocus_trace_decomp (setObserver (insertActive (setActivityId s name aid) name)
            name obs) name FocusState.BACKGROUND
        refine ⟨t1 ++ t2, ?_, ?_⟩
        · rw [h2, h1, List.append_assoc]
        · intro e he
          rcases List.mem_append.mp he with he | he
          · exact Or.inl (hi1 e he).1
          · exact Or.inl (hi2 e he).1

theorem acq_win_trace (s : FMState) (name : String) (obs : Option Nat) (aid : String)
    (f : String) (hfg : topActive s = some f) (hf : ¬ f = name)
    (hw : prioOf s name < prioOf s f) :
    ∃ t1 t2 t3, (acquireChannelHelper s name obs aid).trace = s.trace ++ t1 ++ t2 ++ t3 ∧
      (∀ e ∈ t1, e.1 = name ∧ e.2.2 = FocusState.NONE) ∧
      (∀ e ∈ t2, e.1 = f ∧ e.2.2 = FocusState.BACKGROUND) ∧
      (∀ e ∈ t3, e.1 = name ∧ e.2.2 = FocusState.FOREGROUND) := by
  unfold acquireChannelHelper
  simp only [hfg, if_neg hf, if_pos hw]
  obtain ⟨t1, h1, hi1⟩ := acqPre_trace s name obs aid
  obtain ⟨t2, h2, hi2⟩ :=
    setFocus_trace_decomp (setObserver (insertActive (setActivityId s name aid) name)
      name obs) f FocusState.BACKGROUND
  obtain ⟨t3, h3, hi3⟩ :=
    setFocus_trace_decomp (setFocus (setObserver (insertActive
      (setActivityId s name aid) name) name obs) f FocusState.BACKGROUND)
      name FocusState.FOREGROUND
  refine ⟨t1, t2, t3, ?_, hi1, hi2, hi3⟩
  rw [h3, h2, h1]

theorem focusOf_eq_of_getChannel (s : FMState) (c : String) (ch : Channel)
    (h : getChannel s c = some ch) : focusOf s c = ch.focus := by
  unfold focusOf
  rw [h]

theorem observerOf_eq_of_getChannel (s : FMState) (c : String) (ch : Channel)
    (h : getChannel s c = some ch) : observerOf s c = ch.observer := by
  unfold observerOf
  rw [h]

theorem topActive_acq (s : FMState) (name : String) (obs : Option Nat) (aid : String) :
    topActive (acquireChannelHelper s name obs aid)
      = listArgmin (prioOf s) (acquireChannelHelper s name obs aid).activeChannels := by
  unfold topActive
  congr 1
  funext c
  exact acq_prioOf s name obs aid c

theorem acq_idle_last (s : FMState) (name : String) (obs : Option Nat) (aid : String)
    (inv : FMInv s)
    (hfname : focusOf (acquireChannelHelper s name obs aid) name ≠ FocusState.NONE)
    (hother : ∀ m, m ≠ name →
      focusOf (acquireChannelHelper s name obs aid) m = FocusState.NONE →
      focusOf s m = FocusState.NONE)
    (hobsother : ∀ m, m ≠ name →
      observerOf (acquireChannelHelper s name obs aid) m = observerOf s m) :
    ∀ c o ch, getChannel (acquireChannelHelper s name obs aid) c = some ch →
      ch.focus = FocusState.NONE → ch.observer = some o →
      lastDelivered (acquireChannelHelper s name obs aid) c o = some FocusState.NONE := by
  intro c o ch hch hfoc hobs
  have hfc : focusOf (acquireChannelHelper s name obs aid) c = FocusState.NONE := by
    rw [focusOf_eq_of_getChannel _ _ _ hch, hfoc]
  by_cases hc : c = name
  · subst hc
    exact absurd hfc hfname
  · have hfoc' : focusOf s c = FocusState.NONE := hother c hc hfc
    have hobs' : observerOf s c = some o := by
      rw [← hobsother c hc, observerOf_eq_of_getChannel _ _ _ hch, hobs]
    have hs : (getChannel s c).isSome = true := by
      rw [← acq_isSome s name obs aid c, hch]
      rfl
    obtain ⟨ch0, hch0⟩ := (getChannel_isSome_iff s c).mp hs
    have h1 : ch0.focus = FocusState.NONE := by
      rw [← focusOf_eq_of_getChannel s c ch0 hch0]
      exact hfoc'
    have h2 : ch0.observer = some o := by
      rw [← observerOf_eq_of_getChannel s c ch0 hch0]
      exact hobs'
    have hlast := inv.idle_last c o ch0 hch0 h1 h2
    have hcact : c ∉ s.activeChannels := fun hmem =>
      active_focus_ne_none s inv c hmem hfoc'
    obtain ⟨t, ht, hti⟩ := acq_trace s name obs aid
    rw [lastDelivered_congr _ s c o t ht ?_]
    · exact hlast
    · intro e he
      rcases hti e he with h | h
      · refine Or.inl ?_
        rw [h]
        exact fun hh => hc hh.symm
      · refine Or.inl ?_
        intro hh
        rw [hh] at h
        exact hcact (topActive_mem s c h)

theorem inv_acq_none (s : FMState) (name : String) (obs : Option Nat) (aid : String)
    (inv : FMInv s) (hreg : (getChannel s name).isSome = true)
    (hfg : topActive s = none) : FMInv (acquireChannelHelper s name obs aid) := by
  have hempty : s.activeChannels = [] := (topActive_none_iff s).mp hfg
  have hactive : (acquireChannelHelper s name obs aid).activeChannels = [name] := by
    rw [acq_active, hempty]
    simp
  have htop : topActive (acquireChannelHelper s name obs aid) = some name := by
    rw [topActive_acq, hactive]
    rfl
  obtain ⟨hfgFG, hother⟩ := acq_none_focus s name obs aid hfg hreg
  refine ⟨?_, ?_, ?_, ?_, ?_, ?_, ?_⟩
  · rw [acq_names]
    exact inv.names_nodup
  · rw [acq_prios]
    exact inv.prios_nodup
  · rw [hactive]
    simp
  · intro c hc
    rw [hactive] at hc
    rw [List.mem_singleton] at hc
    subst hc
    rw [acq_isSome]
    exact hreg
  · intro c hc
    rw [htop] at hc
    have hcn : name = c := by simpa using hc
    subst hcn
    exact hfgFG
  · intro c hc hne
    rw [hactive] at hc
    rw [List.mem_singleton] at hc
    subst hc
    rw [htop] at hne
    exact absurd rfl hne
  · exact acq_idle_last s name obs aid inv (by rw [hfgFG]; simp)
      (fun m hm hf => by rw [← hother m hm]; exact hf)
      (fun m hm => acq_observer_ne s name obs aid m hm)

theorem inv_acq_selftop (s : FMState) (name : String) (obs : Option Nat) (aid : String)
    (inv : FMInv s) (hreg : (getChannel s name).isSome = true)
    (hfg : topActive s = some name) : FMInv (acquireChannelHelper s name obs aid) := by
  have hmem : name ∈ s.activeChannels := topActive_mem s name hfg
  have hactive : (acquireChannelHelper s name obs aid).activeChannels = s.activeChannels := by
    rw [acq_active, if_pos hmem]
  have htop : topActive (acquireChannelHelper s name obs aid) = some name := by
    rw [topActive_acq, hactive]
    exact hfg
  obtain ⟨hFG, hother⟩ := acq_selftop_focus s name obs aid hfg hreg
  refine ⟨?_, ?_, ?_, ?_, ?_, ?_, ?_⟩
  · rw [acq_names]
    exact inv.names_nodup
  · rw [acq_prios]
    exact inv.prios_nodup
  · rw [hactive]
    exact inv.active_nodup
  · intro c hc
    rw [hactive] at hc
    rw [acq_isSome]
    exact inv.active_reg c hc
  · intro c hc
    rw [htop] at hc
    have hcn : name = c := by simpa using hc
    subst hcn
    exact hFG
  · intro c hc hne
    rw [hactive] at hc
    rw [htop] at hne
    have hcn : c ≠ name := fun h => hne (by rw [h])
    rw [hother c hcn]
    exact inv.rest_bg c hc (fun h => hcn (by
      rw [hfg] at h
      exact (Option.some_inj.mp h).symm))
  · exact acq_idle_last s name obs aid inv (by rw [hFG]; simp)
      (fun m hm hf => by rw [← hother m hm]; exact hf)
      (fun m hm => acq_observer_ne s name obs aid m hm)

theorem inv_acq_win (s : FMState) (name : String) (obs : Option Nat) (aid : String)
    (f : String) (inv : FMInv s) (hreg : (getChannel s name).isSome = true)
    (hfg : topActive s = some f) (hf : ¬ f = name)
    (hw : prioOf s name < prioOf s f) : FMInv (acquireChannelHelper s name obs aid) := by
  have hfmem : f ∈ s.activeChannels := topActive_mem s f hfg
  have hfreg : (getChannel s f).isSome = true := inv.active_reg f hfmem
  have hnotmem : name ∉ s.activeChannels := fun hmem =>
    (Nat.not_le.mpr hw) (topActive_le s f hfg name hmem)
  have hactive : (acquireChannelHelper s name obs aid).activeChannels
      = name :: s.activeChannels := by
    rw [acq_active, if_neg hnotmem]
  have htop : topActive (acquireChannelHelper s name obs aid) = some name := by
    rw [topActive_acq, hactive]
    apply listArgmin_strict
    · simp
    · intro d hd hdn
      rcases List.mem_cons.mp hd with h | h
      · exact absurd h hdn
      · exact lt_of_lt_of_le hw (topActive_le s f hfg d h)
  obtain ⟨hFG, hBGf, hother⟩ := acq_win_focus s name obs aid f hfg hf hw hreg hfreg
  refine ⟨?_, ?_, ?_, ?_, ?_, ?_, ?_⟩
  · rw [acq_names]
    exact inv.names_nodup
  · rw [acq_prios]
    exact inv.prios_nodup
  · rw [hactive]
    exact List.nodup_cons.mpr ⟨hnotmem, inv.active_nodup⟩
  · intro c hc
    rw [hactive] at hc
    rw [acq_isSome]
    rcases List.mem_cons.mp hc with h | h
    · rw [h]
      exact hreg
    · exact inv.active_reg c h
  · intro c hc
    rw [htop] at hc
    have hcn : name = c := by simpa using hc
    subst hcn
    exact hFG
  · intro c hc hne
    rw [hactive] at hc
    rw [htop] at hne
    have hcn : c ≠ name := fun h => hne (by rw [h])
    rcases List.mem_cons.mp hc with h | h
    · exact absurd h hcn
    · by_cases hcf : c = f
      · rw [hcf]
        exact hBGf
      · rw [hother c hcn hcf]
        exact inv.rest_bg c h (fun hh => hcf (by
          rw [hfg] at hh
          exact (Option.some_inj.mp hh).symm))
  · refine acq_idle_last s name obs aid inv (by rw [hFG]; simp) ?_
      (fun m hm => acq_observer_ne s name obs aid m hm)
    intro m hm hnone
    by_cases hmf : m = f
    · rw [hmf, hBGf] at hnone
      exact absurd hnone (by simp)
    · rw [← hother m hm hmf]
      exact hnone

theorem inv_acq_lose (s : FMState) (name : String) (obs : Option Nat) (aid : String)
    (f : String) (inv : FMInv s) (hreg : (getChannel s name).isSome = true)
    (hfg : topActive s = some f) (hf : ¬ f = name)
    (hw : ¬ prioOf s name < prioOf s f) : FMInv (acquireChannelHelper s name obs aid) := by
  have hfmem : f ∈ s.activeChannels := topActive_mem s f hfg
  have hfreg : (getChannel s f).isSome = true := inv.active_reg f hfmem
  obtain ⟨chn, hchn⟩ := (getChannel_isSome_iff s name).mp hreg
  obtain ⟨chf, hchf⟩ := (getChannel_isSome_iff s f).mp hfreg
  have hne : prioOf s f ≠ prioOf s name := by
    rw [prioOf_eq_of_getChannel s f chf hchf, prioOf_eq_of_getChannel s name chn hchn]
    exact prio_inj s inv.prios_nodup f name chf chn hchf hchn hf
  have hlt : prioOf s f < prioOf s name := lt_of_le_of_ne (Nat.le_of_not_lt hw) hne
  have hactive := acq_active s name obs aid
  have htop : topActive (acquireChannelHelper s name obs aid) = some f := by
    rw [topActive_acq, hactive]
    by_cases hmem : name ∈ s.activeChannels
    · rw [if_pos hmem]
      exact hfg
    · rw [if_neg hmem]
      apply listArgmin_strict
      · exact List.mem_cons_of_mem name hfmem
      · intro d hd hdf
        rcases List.mem_cons.mp hd with h | h
        · rw [h]
          exact hlt
        · exact top_strict s inv f hfg d h hdf
  obtain ⟨hBG, hother⟩ := acq_lose_focus s name obs aid f hfg hf hw hreg
  refine ⟨?_, ?_, ?_, ?_, ?_, ?_, ?_⟩
  · rw [acq_names]
    exact inv.names_nodup
  · rw [acq_prios]
    exact inv.prios_nodup
  · rw [hactive]
    by_cases hmem : name ∈ s.activeChannels
    · rw [if_pos hmem]
      exact inv.active_nodup
    · rw [if_neg hmem]
      exact List.nodup_cons.mpr ⟨hmem, inv.active_nodup⟩
  · intro c hc
    rw [hactive] at hc
    rw [acq_isSome]
    by_cases hmem : name ∈ s.activeChannels
    · rw [if_pos hmem] at hc
      exact inv.active_reg c hc
    · rw [if_neg hmem] at hc
      rcases List.mem_cons.mp hc with h | h
      · rw [h]
        exact hreg
      · exact inv.active_reg c h
  · intro c hc
    rw [htop] at hc
    have hcf : f = c := by simpa using hc
    subst hcf
    rw [hother f hf]
    exact inv.top_fg f hfg
  · intro c hc hne
    rw [hactive] at hc
    rw [htop] at hne
    have hcf : c ≠ f := fun h => hne (by rw [h])
    have hmemcase : c = name ∨ c ∈ s.activeChannels := by
      by_cases hmem : name ∈ s.activeChannels
      · rw [if_pos hmem] at hc
        exact Or.inr hc
      · rw [if_neg hmem] at hc
        exact List.mem_cons.mp hc
    rcases hmemcase with h | h
    · rw [h]
      exact hBG
    · by_cases hcn : c = name
      · rw [hcn]
        exact hBG
      · rw [hother c hcn]
        exact inv.rest_bg c h (fun hh => hcf (by
          rw [hfg] at hh
          exact (Option.some_inj.mp hh).symm))
  · exact acq_idle_last s name obs aid inv (by rw [hBG]; simp)
      (fun m hm hnone => by rw [← hother m hm]; exact hnone)
      (fun m hm => acq_observer_ne s name obs aid m hm)

theorem inv_acquireHelper (s : FMState) (name : String) (obs : Option Nat) (aid : String)
    (inv : FMInv s) (hreg : (getChannel s name).isSome = true) :
    FMInv (acquireChannelHelper s name obs aid) := by
  cases hfg : topActive s with
  | none => exact inv_acq_none s name obs aid inv hreg hfg
  | some f =>
    by_cases hf : f = name
    · rw [hf] at hfg
      exact inv_acq_selftop s name obs aid inv hreg hfg
    · by_cases hw : prioOf s name < prioOf s f
      · exact inv_acq_win s name obs aid f inv hreg hfg hf hw
      · exact inv_acq_lose s name obs aid f inv hreg hfg hf hw

/-! ### Foregrounding the top of the active set -/

theorem fg_eq_of_none (s : FMState) (ht : topActive s = none) :
    foregroundHighestPriorityActiveChannel s = s := by
  unfold foregroundHighestPriorityActiveChannel
  rw [ht]

theorem fg_active (s : FMState) :
    (foregroundHighestPriorityActiveChannel s).activeChannels = s.activeChannels := by
  unfold foregroundHighestPriorityActiveChannel
  cases ht : topActive s with
  | none => rfl
  | some t => exact setFocus_activeChannels s t FocusState.FOREGROUND

theorem fg_prioOf (s : FMState) (m : String) :
    prioOf (foregroundHighestPriorityActiveChannel s) m = prioOf s m := by
  unfold foregroundHighestPriorityActiveChannel
  cases ht : topActive s with
  | none => rfl
  | some t => exact prioOf_setFocus s t FocusState.FOREGROUND m

theorem fg_isSome (s : FMState) (m : String) :
    (getChannel (foregroundHighestPriorityActiveChannel s) m).isSome
      = (getChannel s m).isSome := by
  unfold foregroundHighestPriorityActiveChannel
  cases ht : topActive s with
  | none => rfl
  | some t => exact isSome_setFocus s t FocusState.FOREGROUND m

theorem fg_names (s : FMState) :
    (foregroundHighestPriorityActiveChannel s).allChannels.map Prod.fst
      = s.allChannels.map Prod.fst := by
  unfold foregroundHighestPriorityActiveChannel
  cases ht : topActive s with
  | none => rfl
  | some t => exact setFocus_names s t FocusState.FOREGROUND

theorem fg_prios (s : FMState) :
    (foregroundHighestPriorityActiveChannel s).allChannels.map (fun p => p.2.priority)
      = s.allChannels.map (fun p => p.2.priority) := by
  unfold foregroundHighestPriorityActiveChannel
  cases ht : topActive s with
  | none => rfl
  | some t => exact setFocus_prios s t FocusState.FOREGROUND

theorem fg_observer (s : FMState) (m : String) :
    observerOf (foregroundHighestPriorityActiveChannel s) m = observerOf s m := by
  unfold foregroundHighestPriorityActiveChannel
  cases ht : topActive s with
  | none => rfl
  | some t => exact observerOf_setFocus s t FocusState.FOREGROUND m

theorem fg_aid (s : FMState) (m : String) :
    getActivityId (foregroundHighestPriorityActiveChannel s) m = getActivityId s m := by
  unfold foregroundHighestPriorityActiveChannel
  cases ht : topActive s with
  | none => rfl
  | some t => exact getActivityId_setFocus s t FocusState.FOREGROUND m

theorem fg_focus_top (s : FMState) (t : String) (ht : topActive s = some t)
    (hreg : (getChannel s t).isSome = true) :
    focusOf (foregroundHighestPriorityActiveChannel s) t = FocusState.FOREGROUND := by
  unfold foregroundHighestPriorityActiveChannel
  rw [ht]
  exact focusOf_setFocus_self s t FocusState.FOREGROUND hreg

theorem fg_focus_other (s : FMState) (t m : String) (ht : topActive s = some t)
    (hm : m ≠ t) :
    focusOf (foregroundHighestPriorityActiveChannel s) m = focusOf s m := by
  unfold foregroundHighestPriorityActiveChannel
  rw [ht]
  exact focusOf_setFocus_ne s t FocusState.FOREGROUND m hm

theorem fg_trace (s : FMState) :
    ∃ tl, (foregroundHighestPriorityActiveChannel s).trace = s.trace ++ tl ∧
      ∀ e ∈ tl, topActive s = some e.1 := by
  unfold foregroundHighestPriorityActiveChannel
  cases ht : topActive s with
  | none => exact ⟨[], by simp⟩
  | some t =>
    obtain ⟨tl, h1, h2⟩ := setFocus_trace_decomp s t FocusState.FOREGROUND
    exact ⟨tl, h1, fun e he => by rw [(h2 e he).1]⟩

/-! ### The release task -/

theorem owns_isSome (s : FMState) (name : String) (obs : Option Nat)
    (hown : doesObserverOwnChannel s name obs = true) :
    (getChannel s name).isSome = true := by
  unfold doesObserverOwnChannel at hown
  cases h : getChannel s name with
  | none => rw [h] at hown; exact absurd hown (by simp)
  | some ch => rfl

theorem owns_observer (s : FMState) (name : String) (obs : Option Nat)
    (hown : doesObserverOwnChannel s name obs = true) :
    observerOf s name = obs := by
  unfold doesObserverOwnChannel at hown
  cases h : getChannel s name with
  | none => rw [h] at hown; exact absurd hown (by simp)
  | some ch =>
    rw [h] at hown
    rw [observerOf_eq_of_getChannel s name ch h]
    exact eq_of_beq hown

theorem releaseHelper_rejected (s : FMState) (name : String) (obs : Option Nat)
    (hno : doesObserverOwnChannel s name obs = false) :
    releaseChannelHelper s name obs = (false, s) := by
  unfold releaseChannelHelper
  rw [if_pos (by simp [hno])]

theorem releaseHelper_owns (s : FMState) (name : String) (obs : Option Nat)
    (hown : doesObserverOwnChannel s name obs = true) :
    releaseChannelHelper s name obs =
      (true,
        if isChannelForegroundedLocked s name then
          foregroundHighestPriorityActiveChannel
            (setFocus { s with activeChannels := s.activeChannels.erase name }
              name FocusState.NONE)
        else
          setFocus { s with activeChannels := s.activeChannels.erase name }
            name FocusState.NONE) := by
  unfold releaseChannelHelper
  rw [if_neg (by simp [hown])]

theorem getChannel_setActive (s : FMState) (l : List String) (m : String) :
    getChannel { s with activeChannels := l } m = getChannel s m := rfl

theorem lastDelivered_eq_of_trace (s' s : FMState) (c : String) (o : Nat)
    (h : s'.trace = s.trace) : lastDelivered s' c o = lastDelivered s c o := by
  unfold lastDelivered
  rw [h]

theorem rel_val (s : FMState) (name : String) (obs : Option Nat)
    (hown : doesObserverOwnChannel s name obs = true) :
    (releaseChannelHelper s name obs).1 = true := by
  rw [releaseHelper_owns s name obs hown]

theorem rel_active (s : FMState) (name : String) (obs : Option Nat)
    (hown : doesObserverOwnChannel s name obs = true) :
    (releaseChannelHelper s name obs).2.activeChannels = s.activeChannels.erase name := by
  rw [releaseHelper_owns s name obs hown]
  cases hw : isChannelForegroundedLocked s name
  · rw [if_neg (by simp [hw]), setFocus_activeChannels]
  · rw [if_pos (by simp [hw]), fg_active, setFocus_activeChannels]

theorem rel_prioOf (s : FMState) (name : String) (obs : Option Nat)
    (hown : doesObserverOwnChannel s name obs = true) (m : String) :
    prioOf (releaseChannelHelper s name obs).2 m = prioOf s m := by
  rw [releaseHelper_owns s name obs hown]
  cases hw : isChannelForegroundedLocked s name
  · rw [if_neg (by simp [hw]), prioOf_setFocus]
    rfl
  · rw [if_pos (by simp [hw]), fg_prioOf, prioOf_setFocus]
    rfl

theorem rel_isSome (s : FMState) (name : String) (obs : Option Nat)
    (hown : doesObserverOwnChannel s name obs = true) (m : String) :
    (getChannel (releaseChannelHelper s name obs).2 m).isSome
      = (getChannel s m).isSome := by
  rw [releaseHelper_owns s name obs hown]
  cases hw : isChannelForegroundedLocked s name
  · rw [if_neg (by simp [hw]), isSome_setFocus]
    rfl
  · rw [if_pos (by simp [hw]), fg_isSome, isSome_setFocus]
    rfl

theorem rel_names (s : FMState) (name : String) (obs : Option Nat)
    (hown : doesObserverOwnChannel s name obs = true) :
    (releaseChannelHelper s name obs).2.allChannels.map Prod.fst
      = s.allChannels.map Prod.fst := by
  rw [releaseHelper_owns s name obs hown]
  cases hw : isChannelForegroundedLocked s name
  · rw [if_neg (by simp [hw]), setFocus_names]
  · rw [if_pos (by simp [hw]), fg_names, setFocus_names]

theorem rel_prios (s : FMState) (name : String) (obs : Option Nat)
    (hown : doesObserverOwnChannel s name obs = true) :
    (releaseChannelHelper s name obs).2.allChannels.map (fun p => p.2.priority)
      = s.allChannels.map (fun p => p.2.priority) := by
  rw [releaseHelper_owns s name obs hown]
  cases hw : isChannelForegroundedLocked s name
  · rw [if_neg (by simp [hw]), setFocus_prios]
  · rw [if_pos (by simp [hw]), fg_prios, setFocus_prios]

theorem rel_observer (s : FMState) (name : String) (obs : Option Nat)
    (hown : doesObserverOwnChannel s name obs = true) (m : String) :
    observerOf (releaseChannelHelper s name obs).2 m = observerOf s m := by
  rw [releaseHelper_owns s name obs hown]
  cases hw : isChannelForegroundedLocked s name
  · rw [if_neg (by simp [hw]), observerOf_setFocus]
    rfl
  · rw [if_pos (by simp [hw]), fg_observer, observerOf_setFocus]
    rfl

theorem rel_aid (s : FMState) (name : String) (obs : Option Nat)
    (hown : doesObserverOwnChannel s name obs = true) (m : String) :
    getActivityId (releaseChannelHelper s name obs).2 m = getActivityId s m := by
  rw [releaseHelper_owns s name obs hown]
  cases hw : isChannelForegroundedLocked s name
  · rw [if_neg (by simp [hw]), getActivityId_setFocus]
    rfl
  · rw [if_pos (by simp [hw]), fg_aid, getActivityId_setFocus]
    rfl

theorem topActive_rel (s : FMState) (name : String) (obs : Option Nat)
    (hown : doesObserverOwnChannel s name obs = true) :
    topActive (releaseChannelHelper s name obs).2
      = listArgmin (prioOf s) (s.activeChannels.erase name) := by
  unfold topActive
  rw [rel_active s name obs hown]
  congr 1
  funext c
  exact rel_prioOf s name obs hown c

theorem topActive_s2 (s : FMState) (name : String) :
    topActive (setFocus { s with activeChannels := s.activeChannels.erase name }
        name FocusState.NONE)
      = listArgmin (prioOf s) (s.activeChannels.erase name) := by
  unfold topActive
  rw [setFocus_activeChannels]
  congr 1
  funext c
  rw [prioOf_setFocus]
  rfl

theorem rel_focus_name (s : FMState) (name : String) (obs : Option Nat)
    (hown : doesObserverOwnChannel s name obs = true) (hnd : s.activeChannels.Nodup) :
    focusOf (releaseChannelHelper s name obs).2 name = FocusState.NONE := by
  have hreg : (getChannel s name).isSome = true := owns_isSome s name obs hown
  have h2 : focusOf (setFocus { s with activeChannels := s.activeChannels.erase name }
      name FocusState.NONE) name = FocusState.NONE :=
    focusOf_setFocus_self _ name FocusState.NONE hreg
  rw [releaseHelper_owns s name obs hown]
  cases hw : isChannelForegroundedLocked s name
  · rw [if_neg (by simp [hw])]
    exact h2
  · rw [if_pos (by simp [hw])]
    cases ht2 : topActive (setFocus { s with activeChannels := s.activeChannels.erase name }
        name FocusState.NONE) with
    | none =>
      rw [fg_eq_of_none _ ht2]
      exact h2
    | some t =>
      have htm := topActive_mem _ t ht2
      rw [setFocus_activeChannels] at htm
      have hnt : name ≠ t := by
        intro h
        rw [← h] at htm
        exact (List.Nodup.mem_erase_iff hnd).mp htm |>.1 rfl
      rw [fg_focus_other _ t name ht2 hnt]
      exact h2

theorem rel_focus_other_nofg (s : FMState) (name : String) (obs : Option Nat)
    (hown : doesObserverOwnChannel s name obs = true)
    (hnfg : isChannelForegroundedLocked s name = false) (m : String) (hm : m ≠ name) :
    focusOf (releaseChannelHelper s name obs).2 m = focusOf s m := by
  rw [releaseHelper_owns s name obs hown, if_neg (by simp [hnfg]),
    focusOf_setFocus_ne _ _ _ _ hm]
  rfl

theorem rel_promote (s : FMState) (name : String) (obs : Option Nat)
    (hown : doesObserverOwnChannel s name obs = true)
    (hfgd : isChannelForegroundedLocked s name = true) (t : String)
    (hmin : listArgmin (prioOf s) (s.activeChannels.erase name) = some t)
    (htreg : (getChannel s t).isSome = true) :
    focusOf (releaseChannelHelper s name obs).2 t = FocusState.FOREGROUND := by
  rw [releaseHelper_owns s name obs hown, if_pos (by simp [hfgd])]
  apply fg_focus_top
  · rw [topActive_s2]
    exact hmin
  · rw [isSome_setFocus]
    exact htreg

theorem rel_focus_other_fg (s : FMState) (name : String) (obs : Option Nat)
    (hown : doesObserverOwnChannel s name obs = true)
    (hfgd : isChannelForegroundedLocked s name = true) (t : String)
    (hmin : listArgmin (prioOf s) (s.activeChannels.erase name) = some t) (m : String)
    (hm : m ≠ name) (hmt : m ≠ t) :
    focusOf (releaseChannelHelper s name obs).2 m = focusOf s m := by
  rw [releaseHelper_owns s name obs hown, if_pos (by simp [hfgd])]
  rw [fg_focus_other _ t m (by rw [topActive_s2]; exact hmin) hmt,
    focusOf_setFocus_ne _ _ _ _ hm]
  rfl

theorem rel_focus_other_fgnone (s : FMState) (name : String) (obs : Option Nat)
    (hown : doesObserverOwnChannel s name obs = true)
    (hfgd : isChannelForegroundedLocked s name = true)
    (hmin : listArgmin (prioOf s) (s.activeChannels.erase name) = none) (m : String)
    (hm : m ≠ name) :
    focusOf (releaseChannelHelper s name obs).2 m = focusOf s m := by
  rw [releaseHelper_owns s name obs hown, if_pos (by simp [hfgd]),
    fg_eq_of_none _ (by rw [topActive_s2]; exact hmin),
    focusOf_setFocus_ne _ _ _ _ hm]
  rfl

theorem rel_trace_hit (s : FMState) (name : String) (obs : Option Nat) (o : Nat)
    (hown : doesObserverOwnChannel s name obs = true) (hnd : s.activeChannels.Nodup)
    (hobs : obs = some o) (hfoc : focusOf s name ≠ FocusState.NONE) :
    lastDelivered (releaseChannelHelper s name obs).2 name o = some FocusState.NONE := by
  have hreg : (getChannel s name).isSome = true := owns_isSome s name obs hown
  obtain ⟨ch, hch⟩ := (getChannel_isSome_iff s name).mp hreg
  have hobs' : ch.observer = some o := by
    rw [← observerOf_eq_of_getChannel s name ch hch, owns_observer s name obs hown, hobs]
  have hfoc' : ¬ ch.focus = FocusState.NONE := by
    rw [← focusOf_eq_of_getChannel s name ch hch]
    exact hfoc
  have hch1 : getChannel { s with activeChannels := s.activeChannels.erase name } name
      = some ch := hch
  have hhit : (setFocus { s with activeChannels := s.activeChannels.erase name }
      name FocusState.NONE).trace = s.trace ++ [(name, o, FocusState.NONE)] :=
    setFocus_trace_hit _ name FocusState.NONE ch o hch1 hfoc' hobs'
  rw [releaseHelper_owns s name obs hown]
  cases hw : isChannelForegroundedLocked s name
  · rw [if_neg (by simp [hw])]
    apply lastDelivered_last_hit _ s name o FocusState.NONE []
    · rw [List.append_nil]
      exact hhit
    · simp
  · rw [if_pos (by simp [hw])]
    obtain ⟨tl, htl, hme⟩ :=
      fg_trace (setFocus { s with activeChannels := s.activeChannels.erase name }
        name FocusState.NONE)
    apply lastDelivered_last_hit _ s name o FocusState.NONE tl
    · rw [htl, hhit]
    · intro e he
      have hte := hme e he
      rw [topActive_s2] at hte
      have hmem : e.1 ∈ s.activeChannels.erase name :=
        listArgmin_mem (prioOf s) _ e.1 hte
      refine Or.inl (fun hh => ?_)
      rw [hh] at hmem
      exact (List.Nodup.mem_erase_iff hnd).mp hmem |>.1 rfl

theorem rel_trace_noop (s : FMState) (name : String) (obs : Option Nat)
    (hown : doesObserverOwnChannel s name obs = true)
    (hfoc : focusOf s name = FocusState.NONE)
    (hnfg : isChannelForegroundedLocked s name = false) :
    (releaseChannelHelper s name obs).2.trace = s.trace := by
  have hreg : (getChannel s name).isSome = true := owns_isSome s name obs hown
  obtain ⟨ch, hch⟩ := (getChannel_isSome_iff s name).mp hreg
  have hfoc' : ch.focus = FocusState.NONE := by
    rw [← focusOf_eq_of_getChannel s name ch hch]
    exact hfoc
  have hch1 : getChannel { s with activeChannels := s.activeChannels.erase name } name
      = some ch := hch
  rw [releaseHelper_owns s name obs hown, if_neg (by simp [hnfg]),
    setFocus_eq_of_focus_eq _ name FocusState.NONE ch hch1 hfoc']

theorem rel_trace_decomp (s : FMState) (name : String) (obs : Option Nat)
    (hown : doesObserverOwnChannel s name obs = true) :
    ∃ tl, (releaseChannelHelper s name obs).2.trace = s.trace ++ tl ∧
      ∀ e ∈ tl, e.1 = name ∨
        listArgmin (prioOf s) (s.activeChannels.erase name) = some e.1 := by
  rw [releaseHelper_owns s name obs hown]
  cases hw : isChannelForegroundedLocked s name
  · rw [if_neg (by simp [hw])]
    obtain ⟨t, ht, hi⟩ :=
      setFocus_trace_decomp { s with activeChannels := s.activeChannels.erase name }
        name FocusState.NONE
    exact ⟨t, ht, fun e he => Or.inl (hi e he).1⟩
  · rw [if_pos (by simp [hw])]
    obtain ⟨t1, ht1, hi1⟩ :=
      setFocus_trace_decomp { s with activeChannels := s.activeChannels.erase name }
        name FocusState.NONE
    obtain ⟨t2, ht2, hi2⟩ :=
      fg_trace (setFocus { s with activeChannels := s.activeChannels.erase name }
        name FocusState.NONE)
    refine ⟨t1 ++ t2, ?_, ?_⟩
    · rw [ht2, ht1, List.append_assoc]
    · intro e he
      rcases List.mem_append.mp he with he | he
      · exact Or.inl (hi1 e he).1
      · refine Or.inr ?_
        have := hi2 e he
        rw [topActive_s2] at this
        exact this

theorem inv_releaseHelper (s : FMState) (name : String) (obs : Option Nat)
    (inv : FMInv s) : FMInv (releaseChannelHelper s name obs).2 := by
  cases hown : doesObserverOwnChannel s name obs
  · rw [releaseHelper_rejected s name obs hown]
    exact inv
  · have hreg : (getChannel s name).isSome = true := owns_isSome s name obs hown
    have htops : ∀ t, listArgmin (prioOf s) (s.activeChannels.erase name) = some t →
        isChannelForegroundedLocked s name = false → topActive s = some t := by
      intro t hmin hnfg
      have hnfg' : topActive s ≠ some name := by
        unfold isChannelForegroundedLocked at hnfg
        simpa using hnfg
      by_cases hnm : name ∈ s.activeChannels
      · cases ht0 : topActive s with
        | none =>
          rw [topActive_none_iff] at ht0
          rw [ht0] at hnm
          exact absurd hnm (by simp)
        | some t0 =>
          have ht0n : t0 ≠ name := fun h => hnfg' (by rw [← h]; exact ht0)
          have hkeep := erase_keeps_top s inv t0 name ht0 ht0n
          rw [hkeep] at hmin
          exact congrArg some (Option.some_inj.mp hmin)
      · rw [List.erase_of_not_mem hnm] at hmin
        exact hmin
    refine ⟨?_, ?_, ?_, ?_, ?_, ?_, ?_⟩
    · rw [rel_names s name obs hown]
      exact inv.names_nodup
    · rw [rel_prios s name obs hown]
      exact inv.prios_nodup
    · rw [rel_active s name obs hown]
      exact List.Nodup.erase name inv.active_nodup
    · intro c hc
      rw [rel_active s name obs hown] at hc
      rw [rel_isSome s name obs hown]
      exact inv.active_reg c (List.mem_of_mem_erase hc)
    · intro c hc
      rw [topActive_rel s name obs hown] at hc
      have hcmem : c ∈ s.activeChannels.erase name := listArgmin_mem _ _ c hc
      have hcs : c ∈ s.activeChannels := List.mem_of_mem_erase hcmem
      have hcn : c ≠ name := ((List.Nodup.mem_erase_iff inv.active_nodup).mp hcmem).1
      cases hw : isChannelForegroundedLocked s name
      · have htop := htops c hc hw
        rw [rel_focus_other_nofg s name obs hown hw c hcn]
        exact inv.top_fg c htop
      · exact rel_promote s name obs hown hw c hc (inv.active_reg c hcs)
    · intro c hc hne
      rw [rel_active s name obs hown] at hc
      rw [topActive_rel s name obs hown] at hne
      have hcs : c ∈ s.activeChannels := List.mem_of_mem_erase hc
      have hcn : c ≠ name := ((List.Nodup.mem_erase_iff inv.active_nodup).mp hc).1
      cases hmin : listArgmin (prioOf s) (s.activeChannels.erase name) with
      | none =>
        rw [listArgmin_none_iff] at hmin
        rw [hmin] at hc
        exact absurd hc (by simp)
      | some t =>
        have hct : c ≠ t := fun h => hne (by rw [h]; exact hmin)
        cases hw : isChannelForegroundedLocked s name
        · have htop := htops t hmin hw
          rw [rel_focus_other_nofg s name obs hown hw c hcn]
          exact inv.rest_bg c hcs
            (fun hh => hct (by rw [htop] at hh; exact (Option.some_inj.mp hh).symm))
        · have htopname : topActive s = some name := by
            unfold isChannelForegroundedLocked at hw
            simpa using hw
          rw [rel_focus_other_fg s name obs hown hw t hmin c hcn hct]
          exact inv.rest_bg c hcs
            (fun hh => hcn (by rw [htopname] at hh; exact (Option.some_inj.mp hh).symm))
    · intro c o ch hch hf ho
      by_cases hc : c = name
      · subst hc
        have hobs_eq : obs = some o := by
          have h1 := rel_observer s c obs hown c
          rw [observerOf_eq_of_getChannel _ _ _ hch, ho, owns_observer s c obs hown] at h1
          exact h1.symm
        by_cases hfoc : focusOf s c = FocusState.NONE
        · have hnfg : isChannelForegroundedLocked s c = false := by
            cases hwv : isChannelForegroundedLocked s c
            · rfl
            · exfalso
              have htopname : topActive s = some c := by
                unfold isChannelForegroundedLocked at hwv
                simpa using hwv
              exact active_focus_ne_none s inv c (topActive_mem s c htopname) hfoc
          have htr := rel_trace_noop s c obs hown hfoc hnfg
          rw [lastDelivered_eq_of_trace _ s c o htr]
          obtain ⟨ch0, hch0⟩ := (getChannel_isSome_iff s c).mp hreg
          apply inv.idle_last c o ch0 hch0
          · rw [← focusOf_eq_of_getChannel s c ch0 hch0]
            exact hfoc
          · rw [← observerOf_eq_of_getChannel s c ch0 hch0, owns_observer s c obs hown]
            exact hobs_eq
        · exact rel_trace_hit s c obs o hown inv.active_nodup hobs_eq hfoc
      · have hfc : focusOf (releaseChannelHelper s name obs).2 c = FocusState.NONE := by
          rw [focusOf_eq_of_getChannel _ _ _ hch, hf]
        have hfoc' : focusOf s c = FocusState.NONE := by
          cases hw : isChannelForegroundedLocked s name
          · rw [← rel_focus_other_nofg s name obs hown hw c hc]
            exact hfc
          · cases hmin : listArgmin (prioOf s) (s.activeChannels.erase name) with
            | none =>
              rw [← rel_focus_other_fgnone s name obs hown hw hmin c hc]
              exact hfc
            | some t =>
              by_cases hct : c = t
              · exfalso
                have htreg : (getChannel s t).isSome = true :=
                  inv.active_reg t (List.mem_of_mem_erase (listArgmin_mem _ _ t hmin))
                have hFG := rel_promote s name obs hown hw t hmin htreg
                rw [← hct] at hFG
                rw [hfc] at hFG
                exact absurd hFG (by simp)
              · rw [← rel_focus_other_fg s name obs hown hw t hmin c hc hct]
                exact hfc
        have hobs' : observerOf s c = some o := by
          rw [← rel_observer s name obs hown c, observerOf_eq_of_getChannel _ _ _ hch, ho]
        have hsreg : (getChannel s c).isSome = true := by
          rw [← rel_isSome s name obs hown c, hch]
          rfl
        obtain ⟨ch0, hch0⟩ := (getChannel_isSome_iff s c).mp hsreg
        have hlast := inv.idle_last c o ch0 hch0
          (by rw [← focusOf_eq_of_getChannel s c ch0 hch0]; exact hfoc')
          (by rw [← observerOf_eq_of_getChannel s c ch0 hch0]; exact hobs')
        obtain ⟨tl, htl, hmiss⟩ := rel_trace_decomp s name obs hown
        rw [lastDelivered_congr _ s c o tl htl ?_]
        · exact hlast
        · intro e he
          rcases hmiss e he with h | h
          · exact Or.inl (by rw [h]; exact fun hh => hc hh.symm)
          · refine Or.inl (fun hh => ?_)
            rw [hh] at h
            have hca : c ∈ s.activeChannels :=
              List.mem_of_mem_erase (listArgmin_mem _ _ c h)
            exact active_focus_ne_none s inv c hca hfoc'

/-! ### The stop task -/

theorem stop_guard (s : FMState) (fg : String) :
    stopActivity s fg (getActivityId s fg) = true := by
  unfold stopActivity
  exact beq_self_eq_true _

theorem stop_eq_of_none (s : FMState) (ht : topActive s = none) :
    stopForegroundActivity s = s := by
  unfold stopForegroundActivity
  rw [ht]

theorem stop_eq_some (s : FMState) (fg : String) (ht : topActive s = some fg) :
    stopForegroundActivity s = foregroundHighestPriorityActiveChannel
      { setActivityId s fg "" with activeChannels := s.activeChannels.erase fg } := by
  unfold stopForegroundActivity
  simp only [ht]
  unfold stopForegroundActivityHelper
  rw [if_neg (by simp [stop_guard])]
  rfl

theorem stop_active (s : FMState) (fg : String) (ht : topActive s = some fg) :
    (stopForegroundActivity s).activeChannels = s.activeChannels.erase fg := by
  rw [stop_eq_some s fg ht, fg_active]

theorem stop_prioOf (s : FMState) (fg : String) (ht : topActive s = some fg) (m : String) :
    prioOf (stopForegroundActivity s) m = prioOf s m := by
  rw [stop_eq_some s fg ht, fg_prioOf]
  exact prioOf_setActivityId s fg "" m

theorem stop_isSome (s : FMState) (fg : String) (ht : topActive s = some fg) (m : String) :
    (getChannel (stopForegroundActivity s) m).isSome = (getChannel s m).isSome := by
  rw [stop_eq_some s fg ht, fg_isSome]
  exact isSome_setActivityId s fg "" m

theorem stop_names (s : FMState) (fg : String) (ht : topActive s = some fg) :
    (stopForegroundActivity s).allChannels.map Prod.fst = s.allChannels.map Prod.fst := by
  rw [stop_eq_some s fg ht, fg_names]
  exact setActivityId_names s fg ""

theorem stop_prios (s : FMState) (fg : String) (ht : topActive s = some fg) :
    (stopForegroundActivity s).allChannels.map (fun p => p.2.priority)
      = s.allChannels.map (fun p => p.2.priority) := by
  rw [stop_eq_some s fg ht, fg_prios]
  exact setActivityId_prios s fg ""

theorem stop_observer (s : FMState) (fg : String) (ht : topActive s = some fg) (m : String) :
    observerOf (stopForegroundActivity s) m = observerOf s m := by
  rw [stop_eq_some s fg ht, fg_observer]
  exact observerOf_setActivityId s fg "" m

theorem topActive_stop2 (s : FMState) (fg : String) :
    topActive { setActivityId s fg "" with activeChannels := s.activeChannels.erase fg }
      = listArgmin (prioOf s) (s.activeChannels.erase fg) := by
  unfold topActive
  congr 1
  funext c
  exact prioOf_setActivityId s fg "" c

theorem stop_focus_top (s : FMState) (fg t : String) (ht : topActive s = some fg)
    (hmin : listArgmin (prioOf s) (s.activeChannels.erase fg) = some t)
    (htreg : (getChannel s t).isSome = true) :
    focusOf (stopForegroundActivity s) t = FocusState.FOREGROUND := by
  rw [stop_eq_some s fg ht]
  apply fg_focus_top
  · rw [topActive_stop2]
    exact hmin
  · rw [show getChannel { setActivityId s fg "" with
        activeChannels := s.activeChannels.erase fg } t = getChannel (setActivityId s fg "") t
        from rfl]
    rw [isSome_setActivityId]
    exact htreg

theorem stop_focus_other (s : FMState) (fg t : String) (ht : topActive s = some fg)
    (hmin : listArgmin (prioOf s) (s.activeChannels.erase fg) = some t) (m : String)
    (hmt : m ≠ t) :
    focusOf (stopForegroundActivity s) m = focusOf s m := by
  rw [stop_eq_some s fg ht,
    fg_focus_other _ t m (by rw [topActive_stop2]; exact hmin) hmt]
  exact focusOf_setActivityId s fg "" m

theorem stop_focus_nomin (s : FMState) (fg : String) (ht : topActive s = some fg)
    (hmin : listArgmin (prioOf s) (s.activeChannels.erase fg) = none) (m : String) :
    focusOf (stopForegroundActivity s) m = focusOf s m := by
  rw [stop_eq_some s fg ht,
    fg_eq_of_none _ (by rw [topActive_stop2]; exact hmin)]
  exact focusOf_setActivityId s fg "" m

theorem stop_aid_fg (s : FMState) (fg : String) (ht : topActive s = some fg)
    (hreg : (getChannel s fg).isSome = true) :
    getActivityId (stopForegroundActivity s) fg = "" := by
  rw [stop_eq_some s fg ht, fg_aid]
  exact getActivityId_setActivityId_self s fg "" hreg

theorem stop_aid_ne (s : FMState) (fg : String) (ht : topActive s = some fg) (m : String)
    (hm : m ≠ fg) :
    getActivityId (stopForegroundActivity s) m = getActivityId s m := by
  rw [stop_eq_some s fg ht, fg_aid]
  exact getActivityId_setActivityId_ne s fg "" m hm

theorem stop_trace (s : FMState) (fg : String) (ht : topActive s = some fg) :
    ∃ tl, (stopForegroundActivity s).trace = s.trace ++ tl ∧
      ∀ e ∈ tl, listArgmin (prioOf s) (s.activeChannels.erase fg) = some e.1 := by
  rw [stop_eq_some s fg ht]
  obtain ⟨tl, htl, hme⟩ :=
    fg_trace { setActivityId s fg "" with activeChannels := s.activeChannels.erase fg }
  refine ⟨tl, ?_, ?_⟩
  · rw [htl]
    rfl
  · intro e he
    have := hme e he
    rw [topActive_stop2] at this
    exact this

theorem inv_stop (s : FMState) (inv : FMInv s) : FMInv (stopForegroundActivity s) := by
  cases ht : topActive s with
  | none =>
    rw [stop_eq_of_none s ht]
    exact inv
  | some fg =>
    have hfgmem := topActive_mem s fg ht
    have hfgnotin : fg ∉ s.activeChannels.erase fg := fun h =>
      ((List.Nodup.mem_erase_iff inv.active_nodup).mp h).1 rfl
    have htS : topActive (stopForegroundActivity s)
        = listArgmin (prioOf s) (s.activeChannels.erase fg) := by
      unfold topActive
      rw [stop_active s fg ht]
      congr 1
      funext m
      exact stop_prioOf s fg ht m
    have hfgFG : focusOf (stopForegroundActivity s) fg ≠ FocusState.NONE := by
      cases hmin : listArgmin (prioOf s) (s.activeChannels.erase fg) with
      | none =>
        rw [stop_focus_nomin s fg ht hmin fg, inv.top_fg fg ht]
        simp
      | some t =>
        have htfg : fg ≠ t := fun h => hfgnotin (by
          have hmem := listArgmin_mem (prioOf s) (s.activeChannels.erase fg) t hmin
          rwa [← h] at hmem)
        rw [stop_focus_other s fg t ht hmin fg htfg, inv.top_fg fg ht]
        simp
    refine ⟨?_, ?_, ?_, ?_, ?_, ?_, ?_⟩
    · rw [stop_names s fg ht]
      exact inv.names_nodup
    · rw [stop_prios s fg ht]
      exact inv.prios_nodup
    · rw [stop_active s fg ht]
      exact List.Nodup.erase fg inv.active_nodup
    · intro c hc
      rw [stop_active s fg ht] at hc
      rw [stop_isSome s fg ht]
      exact inv.active_reg c (List.mem_of_mem_erase hc)
    · intro c hc
      rw [htS] at hc
      exact stop_focus_top s fg c ht hc
        (inv.active_reg c (List.mem_of_mem_erase (listArgmin_mem _ _ c hc)))
    · intro c hc hne
      rw [stop_active s fg ht] at hc
      rw [htS] at hne
      have hcs := List.mem_of_mem_erase hc
      have hcfg : c ≠ fg := ((List.Nodup.mem_erase_iff inv.active_nodup).mp hc).1
      cases hmin : listArgmin (prioOf s) (s.activeChannels.erase fg) with
      | none =>
        rw [listArgmin_none_iff] at hmin
        rw [hmin] at hc
        exact absurd hc (by simp)
      | some t =>
        have hct : c ≠ t := fun h => hne (by rw [h]; exact hmin)
        rw [stop_focus_other s fg t ht hmin c hct]
        exact inv.rest_bg c hcs
          (fun hh => hcfg (by rw [ht] at hh; exact (Option.some_inj.mp hh).symm))
    · intro c o ch hch hf ho
      have hfc : focusOf (stopForegroundActivity s) c = FocusState.NONE := by
        rw [focusOf_eq_of_getChannel _ _ _ hch, hf]
      have hcfg : c ≠ fg := fun h => hfgFG (by rw [← h]; exact hfc)
      have hfoc' : focusOf s c = FocusState.NONE := by
        cases hmin : listArgmin (prioOf s) (s.activeChannels.erase fg) with
        | none =>
          rw [← stop_focus_nomin s fg ht hmin c]
          exact hfc
        | some t =>
          by_cases hct : c = t
          · exfalso
            have htreg : (getChannel s t).isSome = true :=
              inv.active_reg t (List.mem_of_mem_erase (listArgmin_mem _ _ t hmin))
            have hFG := stop_focus_top s fg t ht hmin htreg
            rw [← hct, hfc] at hFG
            exact absurd hFG (by simp)
          · rw [← stop_focus_other s fg t ht hmin c hct]
            exact hfc
      have hobs' : observerOf s c = some o := by
        rw [← stop_observer s fg ht c, observerOf_eq_of_getChannel _ _ _ hch, ho]
      have hsreg : (getChannel s c).isSome = true := by
        rw [← stop_isSome s fg ht c, hch]
        rfl
      obtain ⟨ch0, hch0⟩ := (getChannel_isSome_iff s c).mp hsreg
      have hlast := inv.idle_last c o ch0 hch0
        (by rw [← focusOf_eq_of_getChannel s c ch0 hch0]; exact hfoc')
        (by rw [← observerOf_eq_of_getChannel s c ch0 hch0]; exact hobs')
      obtain ⟨tl, htl, hmiss⟩ := stop_trace s fg ht
      rw [lastDelivered_congr _ s c o tl htl ?_]
      · exact hlast
      · intro e he
        refine Or.inl (fun hh => ?_)
        have h := hmiss e he
        rw [hh] at h
        have hca : c ∈ s.activeChannels :=
          List.mem_of_mem_erase (listArgmin_mem _ _ c h)
        exact active_focus_ne_none s inv c hca hfoc'

/-! ### Construction -/

theorem buildChannels_name_dup (chans : List (String × Channel)) (logs : List LogEvent)
    (cfg : ChannelConfiguration) (rest : List ChannelConfiguration)
    (h : doesChannelNameExist chans cfg.name = true) :
    buildChannels chans logs (cfg :: rest)
      = buildChannels chans (logs ++ [LogEvent.channelNameExists cfg]) rest := by
  simp only [buildChannels]
  rw [if_pos h]

theorem buildChannels_prio_dup (chans : List (String × Channel)) (logs : List LogEvent)
    (cfg : ChannelConfiguration) (rest : List ChannelConfiguration)
    (hn : doesChannelNameExist chans cfg.name = false)
    (hp : doesChannelPriorityExist chans cfg.priority = true) :
    buildChannels chans logs (cfg :: rest)
      = buildChannels chans (logs ++ [LogEvent.channelPriorityExists cfg]) rest := by
  simp only [buildChannels]
  rw [if_neg (by simp [hn]), if_pos hp]

theorem buildChannels_fresh (chans : List (String × Channel)) (logs : List LogEvent)
    (cfg : ChannelConfiguration) (rest : List ChannelConfiguration)
    (hn : doesChannelNameExist chans cfg.name = false)
    (hp : doesChannelPriorityExist chans cfg.priority = false) :
    buildChannels chans logs (cfg :: rest)
      = buildChannels
          (chans ++ [(cfg.name, Channel.mk cfg.priority none "" FocusState.NONE)])
          logs rest := by
  simp only [buildChannels]
  rw [if_neg (by simp [hn]), if_neg (by simp [hp])]

theorem name_notin_of_not_exists (chans : List (String × Channel)) (n : String)
    (h : doesChannelNameExist chans n = false) : n ∉ chans.map Prod.fst := by
  intro hmem
  obtain ⟨p, hp, hpn⟩ := List.mem_map.mp hmem
  have : doesChannelNameExist chans n = true := by
    unfold doesChannelNameExist
    rw [List.any_eq_true]
    exact ⟨p, hp, by simp [hpn]⟩
  rw [h] at this
  cases this

theorem prio_notin_of_not_exists (chans : List (String × Channel)) (pr : Nat)
    (h : doesChannelPriorityExist chans pr = false) :
    pr ∉ chans.map (fun p => p.2.priority) := by
  intro hmem
  obtain ⟨p, hp, hpn⟩ := List.mem_map.mp hmem
  have : doesChannelPriorityExist chans pr = true := by
    unfold doesChannelPriorityExist
    rw [List.any_eq_true]
    exact ⟨p, hp, by simp [hpn]⟩
  rw [h] at this
  cases this

theorem buildChannels_nodup (cfgs : List ChannelConfiguration) :
    ∀ (chans : List (String × Channel)) (logs : List LogEvent),
      (chans.map Prod.fst).Nodup → (chans.map (fun p => p.2.priority)).Nodup →
      ((buildChannels chans logs cfgs).1.map Prod.fst).Nodup ∧
        ((buildChannels chans logs cfgs).1.map (fun p => p.2.priority)).Nodup := by
  induction cfgs with
  | nil => exact fun chans logs h1 h2 => ⟨h1, h2⟩
  | cons cfg rest ih =>
    intro chans logs h1 h2
    cases hn : doesChannelNameExist chans cfg.name
    · cases hp : doesChannelPriorityExist chans cfg.priority
      · rw [buildChannels_fresh chans logs cfg rest hn hp]
        apply ih
        · rw [List.map_append]
          simp only [List.map_cons, List.map_nil]
          rw [List.nodup_append]
          exact ⟨h1, List.nodup_singleton _,
            fun x hx hx2 =>
              name_notin_of_not_exists chans cfg.name hn
                (List.mem_singleton.mp hx2 ▸ hx)⟩
        · rw [List.map_append]
          simp only [List.map_cons, List.map_nil]
          rw [List.nodup_append]
          exact ⟨h2, List.nodup_singleton _,
            fun x hx hx2 =>
              prio_notin_of_not_exists chans cfg.priority hp
                (List.mem_singleton.mp hx2 ▸ hx)⟩
      · rw [buildChannels_prio_dup chans logs cfg rest hn hp]
        exact ih chans _ h1 h2
    · rw [buildChannels_name_dup chans logs cfg rest hn]
      exact ih chans _ h1 h2

theorem buildChannels_no_observer (cfgs : List ChannelConfiguration) :
    ∀ (chans : List (String × Channel)) (logs : List LogEvent),
      (∀ p ∈ chans, p.2.observer = none) →
      ∀ p ∈ (buildChannels chans logs cfgs).1, p.2.observer = none := by
  induction cfgs with
  | nil => exact fun chans logs h => h
  | cons cfg rest ih =>
    intro chans logs h
    cases hn : doesChannelNameExist chans cfg.name
    · cases hp : doesChannelPriorityExist chans cfg.priority
      · rw [buildChannels_fresh chans logs cfg rest hn hp]
        apply ih
        intro p hpmem
        rcases List.mem_append.mp hpmem with hm | hm
        · exact h p hm
        · rw [List.mem_singleton] at hm
          rw [hm]
      · rw [buildChannels_prio_dup chans logs cfg rest hn hp]
        exact ih chans _ h
    · rw [buildChannels_name_dup chans logs cfg rest hn]
      exact ih chans _ h

theorem inv_init (cfgs : List ChannelConfiguration) : FMInv (mkFocusManager cfgs) := by
  obtain ⟨h1, h2⟩ := buildChannels_nodup cfgs [] [] (by simp) (by simp)
  refine ⟨h1, h2, by simp [mkFocusManager], ?_, ?_, ?_, ?_⟩
  · intro c hc
    exact absurd hc (by simp [mkFocusManager])
  · intro c hc
    exact absurd hc (by rw [show topActive (mkFocusManager cfgs) = none from rfl]; simp)
  · intro c hc
    exact absurd hc (by simp [mkFocusManager])
  · intro c o ch hch hf ho
    have hmem := getChannel_mem _ c ch hch
    have := buildChannels_no_observer cfgs [] [] (by simp) (c, ch) hmem
    rw [ho] at this
    cases this

/-! ### The reachability invariant -/

theorem reachable_inv (cfgs : List ChannelConfiguration) (s : FMState)
    (h : FMReachable cfgs s) : FMInv s := by
  induction h with
  | init => exact inv_init cfgs
  | step hr hs ih =>
    rename_i s t
    cases hs with
    | acquire name obs aid =>
      unfold acquireChannel
      cases hch : getChannel s name with
      | none =>
        simp only [hch]
        exact ih
      | some ch =>
        simp only [hch]
        exact inv_acquireHelper s name obs aid ih (by rw [hch]; rfl)
    | release name obs =>
      unfold releaseChannel
      cases hch : getChannel s name with
      | none =>
        simp only [hch]
        exact ih
      | some ch =>
        simp only [hch]
        exact inv_releaseHelper s name obs ih
    | stop =>
      exact inv_stop s ih

/-! ### Further helper lemmas for the claims -/

theorem acq_focus_name_nonnone (s : FMState) (name : String) (obs : Option Nat)
    (aid : String) (hreg : (getChannel s name).isSome = true) :
    focusOf (acquireChannelHelper s name obs aid) name ≠ FocusState.NONE := by
  unfold acquireChannelHelper
  cases hfg : topActive s with
  | none =>
    simp only [hfg]
    rw [focusOf_setFocus_self _ _ _ (by rw [acqPre_isSome]; exact hreg)]
    simp
  | some f =>
    simp only [hfg]
    by_cases hf : f = name
    · rw [if_pos hf, focusOf_setFocus_self _ _ _ (by rw [acqPre_isSome]; exact hreg)]
      simp
    · rw [if_neg hf]
      by_cases hw : prioOf s name < prioOf s f
      · rw [if_pos hw, focusOf_setFocus_self _ _ _
          (by rw [isSome_setFocus, acqPre_isSome]; exact hreg)]
        simp
      · rw [if_neg hw, focusOf_setFocus_self _ _ _ (by rw [acqPre_isSome]; exact hreg)]
        simp

theorem owns_of_observerOf (s : FMState) (name : String) (obs : Option Nat)
    (h1 : (getChannel s name).isSome = true) (h2 : observerOf s name = obs) :
    doesObserverOwnChannel s name obs = true := by
  obtain ⟨ch, hch⟩ := (getChannel_isSome_iff s name).mp h1
  rw [observerOf_eq_of_getChannel s name ch hch] at h2
  unfold doesObserverOwnChannel
  rw [hch]
  simp [h2]

theorem exS1_reachable : FMReachable exCfgs exS1 :=
  FMReachable.step FMReachable.init (FMStep.acquire exS0 "Content" (some 1) "music")

theorem exS2_reachable : FMReachable exCfgs exS2 :=
  FMReachable.step exS1_reachable (FMStep.acquire exS1 "Dialog" (some 2) "tts")

theorem exS3_reachable : FMReachable exCfgs exS3 :=
  FMReachable.step exS2_reachable (FMStep.stop exS2)

theorem exT1_reachable : FMReachable exCfgsA exT1 :=
  FMReachable.step FMReachable.init (FMStep.acquire exT0 "A" (some 1) "x")

/-! ### The claims -/

/-- C1 (amended): after every settled operation, if the active set is
non-empty then its highest-priority member (the top) has focus FOREGROUND,
every other active channel has focus BACKGROUND, and the top is the unique
active channel with FOREGROUND focus.  (The original claim's final clause —
that no channel outside the active set has focus FOREGROUND — fails after a
successful stop, which removes the stopped channel without resetting its
focus; see the counterexample.) -/
theorem C1_unique_foreground (cfgs : List ChannelConfiguration) (s : FMState)
    (h : FMReachable cfgs s) (hne : s.activeChannels ≠ []) :
    ∃ t, topActive s = some t ∧ t ∈ s.activeChannels ∧
      focusOf s t = FocusState.FOREGROUND ∧
      (∀ c ∈ s.activeChannels, prioOf s t ≤ prioOf s c) ∧
      (∀ c ∈ s.activeChannels, c ≠ t → focusOf s c = FocusState.BACKGROUND) ∧
      (∀ c ∈ s.activeChannels, focusOf s c = FocusState.FOREGROUND → c = t) := by
  have inv := reachable_inv cfgs s h
  cases ht : topActive s with
  | none => exact absurd ((topActive_none_iff s).mp ht) hne
  | some t =>
    have hrest : ∀ c ∈ s.activeChannels, c ≠ t → focusOf s c = FocusState.BACKGROUND := by
      intro c hc hct
      exact inv.rest_bg c hc
        (fun hh => hct (by rw [ht] at hh; exact (Option.some_inj.mp hh).symm))
    refine ⟨t, rfl, topActive_mem s t ht, inv.top_fg t ht, topActive_le s t ht, hrest, ?_⟩
    intro c hc hfc
    by_contra hct
    have hbg := hrest c hc hct
    rw [hfc] at hbg
    cases hbg

/-- C1 witness: the amended invariant instantiated in the concrete two-channel
run with Dialog foregrounded over Content. -/
theorem C1_unique_foreground_witness :
    ∃ t, topActive exS2 = some t ∧ t ∈ exS2.activeChannels ∧
      focusOf exS2 t = FocusState.FOREGROUND ∧
      (∀ c ∈ exS2.activeChannels, prioOf exS2 t ≤ prioOf exS2 c) ∧
      (∀ c ∈ exS2.activeChannels, c ≠ t → focusOf exS2 c = FocusState.BACKGROUND) ∧
      (∀ c ∈ exS2.activeChannels, focusOf exS2 c = FocusState.FOREGROUND → c = t) :=
  C1_unique_foreground exCfgs exS2 exS2_reachable (by decide)

/-- C1 counterexample: after a settled stop from the state with Dialog
foregrounded and Content backgrounded, Dialog is outside the active set yet
still has focus FOREGROUND, so the claim's clause that no channel outside the
active set holds FOREGROUND is false. -/
theorem C1_counterexample :
    FMReachable exCfgs exS3 ∧ "Dialog" ∉ exS3.activeChannels ∧
      focusOf exS3 "Dialog" = FocusState.FOREGROUND :=
  ⟨exS3_reachable, by decide, by decide⟩

/-- C2 (confirmed): the acquire task installs the supplied observer and then
decides the new focus solely from the snapshot of the foreground channel taken
before the acquired channel was inserted: no snapshot — acquired channel set
FOREGROUND; snapshot is the acquired channel itself — set FOREGROUND; acquired
channel of strictly higher priority (lower numeric value) — the previous
foreground is set BACKGROUND first and the acquired channel FOREGROUND second
(the losing channel's notification precedes the winning channel's in the
trace); otherwise only the acquired channel is set BACKGROUND and the previous
foreground's focus is untouched. -/
theorem C2_acquire_decision_table (s : FMState) (name : String) (obs : Option Nat)
    (aid : String) (hreg : (getChannel s name).isSome = true)
    (hact : ∀ c ∈ s.activeChannels, (getChannel s c).isSome = true) :
    observerOf (acquireChannelHelper s name obs aid) name = obs ∧
    (topActive s = none →
      focusOf (acquireChannelHelper s name obs aid) name = FocusState.FOREGROUND ∧
      ∀ m, m ≠ name → focusOf (acquireChannelHelper s name obs aid) m = focusOf s m) ∧
    (topActive s = some name →
      focusOf (acquireChannelHelper s name obs aid) name = FocusState.FOREGROUND ∧
      ∀ m, m ≠ name → focusOf (acquireChannelHelper s name obs aid) m = focusOf s m) ∧
    (∀ f, topActive s = some f → f ≠ name → prioOf s name < prioOf s f →
      focusOf (acquireChannelHelper s name obs aid) name = FocusState.FOREGROUND ∧
      focusOf (acquireChannelHelper s name obs aid) f = FocusState.BACKGROUND ∧
      (∀ m, m ≠ name → m ≠ f →
        focusOf (acquireChannelHelper s name obs aid) m = focusOf s m) ∧
      ∃ t1 t2 t3, (acquireChannelHelper s name obs aid).trace
          = s.trace ++ t1 ++ t2 ++ t3 ∧
        (∀ e ∈ t1, e.1 = name ∧ e.2.2 = FocusState.NONE) ∧
        (∀ e ∈ t2, e.1 = f ∧ e.2.2 = FocusState.BACKGROUND) ∧
        (∀ e ∈ t3, e.1 = name ∧ e.2.2 = FocusState.FOREGROUND)) ∧
    (∀ f, topActive s = some f → f ≠ name → ¬ prioOf s name < prioOf s f →
      focusOf (acquireChannelHelper s name obs aid) name = FocusState.BACKGROUND ∧
      ∀ m, m ≠ name → focusOf (acquireChannelHelper s name obs aid) m = focusOf s m) := by
  refine ⟨acq_observer_self s name obs aid hreg, ?_, ?_, ?_, ?_⟩
  · intro hfg
    exact acq_none_focus s name obs aid hfg hreg
  · intro hfg
    exact acq_selftop_focus s name obs aid hfg hreg
  · intro f hfg hf hw
    have hfreg : (getChannel s f).isSome = true :=
      hact f (topActive_mem s f hfg)
    obtain ⟨h1, h2, h3⟩ :=
      acq_win_focus s name obs aid f hfg (fun h => hf h) hw hreg hfreg
    exact ⟨h1, h2, h3, acq_win_trace s name obs aid f hfg (fun h => hf h) hw⟩
  · intro f hfg hf hw
    exact acq_lose_focus s name obs aid f hfg (fun h => hf h) hw hreg

/-- C2 witness: acquiring Dialog while Content is foregrounded preempts it —
Dialog ends FOREGROUND and Content BACKGROUND. -/
theorem C2_acquire_decision_table_witness :
    focusOf (acquireChannelHelper exS1 "Dialog" (some 2) "tts") "Dialog"
        = FocusState.FOREGROUND ∧
    focusOf (acquireChannelHelper exS1 "Dialog" (some 2) "tts") "Content"
        = FocusState.BACKGROUND := by
  have h := (C2_acquire_decision_table exS1 "Dialog" (some 2) "tts" (by decide)
    (by decide)).2.2.2.1 "Content" (by decide) (by decide) (by decide)
  exact ⟨h.1, h.2.1⟩

/-- C3 (amended): after every settled operation a channel in the active set
has focus different from NONE, and a channel released by its owner ends with
focus NONE outside the active set.  (The original claim's converse — every
channel outside the active set has focus NONE, in particular one removed by a
successful stop — fails: the stop path removes the channel without resetting
its focus; see the counterexample.) -/
theorem C3_active_nonnone (cfgs : List ChannelConfiguration) (s : FMState)
    (h : FMReachable cfgs s) :
    (∀ c ∈ s.activeChannels, focusOf s c ≠ FocusState.NONE) ∧
    (∀ name obs, doesObserverOwnChannel s name obs = true →
      focusOf (releaseChannel s name obs).2 name = FocusState.NONE ∧
      name ∉ (releaseChannel s name obs).2.activeChannels) := by
  have inv := reachable_inv cfgs s h
  constructor
  · exact fun c hc => active_focus_ne_none s inv c hc
  · intro name obs hown
    have hreg := owns_isSome s name obs hown
    obtain ⟨ch, hch⟩ := (getChannel_isSome_iff s name).mp hreg
    unfold releaseChannel
    simp only [hch]
    constructor
    · exact rel_focus_name s name obs hown inv.active_nodup
    · rw [rel_active s name obs hown]
      exact fun hmem =>
        ((List.Nodup.mem_erase_iff inv.active_nodup).mp hmem).1 rfl

/-- C3 witness: in the concrete run, active channels are non-NONE and a valid
release of Dialog leaves it with focus NONE outside the active set. -/
theorem C3_active_nonnone_witness :
    focusOf exS2 "Dialog" ≠ FocusState.NONE ∧
    focusOf (releaseChannel exS2 "Dialog" (some 2)).2 "Dialog" = FocusState.NONE ∧
    "Dialog" ∉ (releaseChannel exS2 "Dialog" (some 2)).2.activeChannels := by
  have h := C3_active_nonnone exCfgs exS2 exS2_reachable
  exact ⟨h.1 "Dialog" (by decide), h.2 "Dialog" (some 2) (by decide)⟩

/-- C3 counterexample: after a settled stop, Dialog was removed from the
active set by the stop yet its focus is not NONE, refuting both the
active-iff-non-NONE equivalence and the clause that a channel removed by a
successful stop has focus NONE. -/
theorem C3_counterexample :
    FMReachable exCfgs exS3 ∧ "Dialog" ∉ exS3.activeChannels ∧
      focusOf exS3 "Dialog" ≠ FocusState.NONE :=
  ⟨exS3_reachable, by decide, by decide⟩

/-- C4 (confirmed): a release whose observer owns the channel is fulfilled
true, removes the channel from the active set, sets the released channel's
focus to NONE (so the owning observer's final received state for that channel
is NONE), and promotes the new highest-priority active channel (when one
exists) to FOREGROUND exactly when the released channel was the foregrounded
one at removal time — otherwise every other channel's focus is untouched. -/
theorem C4_release_valid (cfgs : List ChannelConfiguration) (s : FMState)
    (h : FMReachable cfgs s) (name : String) (obs : Option Nat)
    (hown : doesObserverOwnChannel s name obs = true) :
    (releaseChannel s name obs).1 = true ∧
    name ∉ (releaseChannel s name obs).2.activeChannels ∧
    focusOf (releaseChannel s name obs).2 name = FocusState.NONE ∧
    (∀ o, obs = some o →
      lastDelivered (releaseChannel s name obs).2 name o = some FocusState.NONE) ∧
    (isChannelForegroundedLocked s name = true →
      ∀ t, listArgmin (prioOf s) (s.activeChannels.erase name) = some t →
        focusOf (releaseChannel s name obs).2 t = FocusState.FOREGROUND) ∧
    (isChannelForegroundedLocked s name = false →
      ∀ m, m ≠ name → focusOf (releaseChannel s name obs).2 m = focusOf s m) := by
  have inv := reachable_inv cfgs s h
  have hreg := owns_isSome s name obs hown
  obtain ⟨ch, hch⟩ := (getChannel_isSome_iff s name).mp hreg
  unfold releaseChannel
  simp only [hch]
  have hfocN := rel_focus_name s name obs hown inv.active_nodup
  refine ⟨rel_val s name obs hown, ?_, hfocN, ?_, ?_, ?_⟩
  · rw [rel_active s name obs hown]
    exact fun hmem => ((List.Nodup.mem_erase_iff inv.active_nodup).mp hmem).1 rfl
  · intro o ho
    have hpost := inv_releaseHelper s name obs inv
    have hpreg : (getChannel (releaseChannelHelper s name obs).2 name).isSome = true := by
      rw [rel_isSome s name obs hown]
      exact hreg
    obtain ⟨ch', hch'⟩ := (getChannel_isSome_iff _ name).mp hpreg
    apply hpost.idle_last name o ch' hch'
    · rw [← focusOf_eq_of_getChannel _ _ _ hch']
      exact hfocN
    · rw [← observerOf_eq_of_getChannel _ _ _ hch', rel_observer s name obs hown,
        owns_observer s name obs hown]
      exact ho
  · intro hfgd t hmin
    exact rel_promote s name obs hown hfgd t hmin
      (inv.active_reg t (List.mem_of_mem_erase (listArgmin_mem _ _ t hmin)))
  · intro hnfg m hm
    exact rel_focus_other_nofg s name obs hown hnfg m hm

/-- C4 witness: releasing the foregrounded Dialog fulfills true, Dialog ends
NONE with its observer last notified NONE, and Content is promoted to
FOREGROUND. -/
theorem C4_release_valid_witness :
    (releaseChannel exS2 "Dialog" (some 2)).1 = true ∧
    focusOf (releaseChannel exS2 "Dialog" (some 2)).2 "Dialog" = FocusState.NONE ∧
    lastDelivered (releaseChannel exS2 "Dialog" (some 2)).2 "Dialog" 2
        = some FocusState.NONE ∧
    focusOf (releaseChannel exS2 "Dialog" (some 2)).2 "Content"
        = FocusState.FOREGROUND := by
  have h := C4_release_valid exCfgs exS2 exS2_reachable "Dialog" (some 2) (by decide)
  exact ⟨h.1, h.2.2.1, h.2.2.2.1 2 rfl, h.2.2.2.2.1 (by decide) "Content" (by decide)⟩

/-- C5 (confirmed): a release task whose supplied observer is not the
channel's current owner fulfills the future with false and returns the state
completely unchanged — no observer notification (same trace), same active set,
and the channel's observer, focus and activity id untouched. -/
theorem C5_wrong_observer_release (s : FMState) (name : String) (obs : Option Nat)
    (ch : Channel) (hch : getChannel s name = some ch)
    (hno : doesObserverOwnChannel s name obs = false) :
    releaseChannel s name obs = (false, s) := by
  unfold releaseChannel
  simp only [hch]
  exact releaseHelper_rejected s name obs hno

/-- C5 witness: releasing Dialog with the wrong observer identity 99 resolves
false and leaves the state untouched. -/
theorem C5_wrong_observer_release_witness :
    releaseChannel exS2 "Dialog" (some 99) = (false, exS2) :=
  C5_wrong_observer_release exS2 "Dialog" (some 99)
    (Channel.mk 100 (some 2) "tts" FocusState.FOREGROUND) (by decide) (by decide)

/-- C6 (amended): for every well-formed state in which channel C is NOT yet in
the active set, acquire(C, O, A) followed by release(C, O) succeeds on both
calls, returns the active set to exactly its value before the acquire, and
O's last received state for its tenure on C is NONE.  (The original claim over
every reachable state fails when C was already active before the acquire: the
release then removes C, shrinking the active set below its pre-acquire value;
see the counterexample.) -/
theorem C6_roundtrip (s : FMState) (name : String) (obs : Option Nat) (aid : String)
    (o : Nat) (hreg : (getChannel s name).isSome = true)
    (hna : name ∉ s.activeChannels) (hnd : s.activeChannels.Nodup)
    (ho : obs = some o) :
    (acquireChannel s name obs aid).1 = true ∧
    (releaseChannel (acquireChannel s name obs aid).2 name obs).1 = true ∧
    (releaseChannel (acquireChannel s name obs aid).2 name obs).2.activeChannels
      = s.activeChannels ∧
    lastDelivered (releaseChannel (acquireChannel s name obs aid).2 name obs).2 name o
      = some FocusState.NONE := by
  obtain ⟨ch, hch⟩ := (getChannel_isSome_iff s name).mp hreg
  unfold acquireChannel
  simp only [hch]
  have hreg1 : (getChannel (acquireChannelHelper s name obs aid) name).isSome = true := by
    rw [acq_isSome]
    exact hreg
  obtain ⟨ch1, hch1⟩ := (getChannel_isSome_iff _ name).mp hreg1
  have hobs1 : observerOf (acquireChannelHelper s name obs aid) name = obs :=
    acq_observer_self s name obs aid hreg
  have hown1 : doesObserverOwnChannel (acquireChannelHelper s name obs aid) name obs
      = true := owns_of_observerOf _ name obs hreg1 hobs1
  have hactive1 : (acquireChannelHelper s name obs aid).activeChannels
      = name :: s.activeChannels := by
    rw [acq_active, if_neg hna]
  have hnd1 : (acquireChannelHelper s name obs aid).activeChannels.Nodup := by
    rw [hactive1]
    exact List.nodup_cons.mpr ⟨hna, hnd⟩
  unfold releaseChannel
  simp only [hch1]
  refine ⟨trivial, rel_val _ name obs hown1, ?_, ?_⟩
  · rw [rel_active _ name obs hown1, hactive1, List.erase_cons_head]
  · exact rel_trace_hit _ name obs o hown1 hnd1 ho
      (acq_focus_name_nonnone s name obs aid hreg)

/-- C6 witness: acquiring and releasing Content on the fresh two-channel
manager restores the empty active set and delivers a final NONE to its
observer. -/
theorem C6_roundtrip_witness :
    (acquireChannel exS0 "Content" (some 1) "music").1 = true ∧
    (releaseChannel (acquireChannel exS0 "Content" (some 1) "music").2
      "Content" (some 1)).1 = true ∧
    (releaseChannel (acquireChannel exS0 "Content" (some 1) "music").2
      "Content" (some 1)).2.activeChannels = exS0.activeChannels ∧
    lastDelivered (releaseChannel (acquireChannel exS0 "Content" (some 1) "music").2
      "Content" (some 1)).2 "Content" 1 = some FocusState.NONE :=
  C6_roundtrip exS0 "Content" (some 1) "music" 1 (by decide) (by decide) (by decide) rfl

/-- C6 counterexample: in the reachable one-channel state where A is already
active, acquire(A, observer 2, "y") then release(A, observer 2) — both
succeeding — leaves the active set empty instead of restoring its pre-acquire
value, which contained A. -/
theorem C6_counterexample :
    FMReachable exCfgsA exT1 ∧
    (acquireChannel exT1 "A" (some 2) "y").1 = true ∧
    (releaseChannel exT2 "A" (some 2)).1 = true ∧
    exT3.activeChannels ≠ exT1.activeChannels :=
  ⟨exT1_reachable, by decide, by decide, by decide⟩

/-- C7 (amended): a second stop_foreground_activity after one that left the
active set empty is a no-op — the state is completely unchanged.  (The
original claim over every reachable state fails when another channel remained
active: the first stop promotes it to foreground, and the second stop then
vacates it as well; see the counterexample.) -/
theorem C7_double_stop (s : FMState)
    (h : (stopForegroundActivity s).activeChannels = []) :
    stopForegroundActivity (stopForegroundActivity s) = stopForegroundActivity s :=
  stop_eq_of_none _ ((topActive_none_iff _).mpr h)

/-- C7 witness: after stopping the only active channel A, a further stop
changes nothing. -/
theorem C7_double_stop_witness :
    stopForegroundActivity (stopForegroundActivity exT1)
      = stopForegroundActivity exT1 :=
  C7_double_stop exT1 (by decide)

/-- C7 counterexample: from the reachable state with Dialog foregrounded and
Content backgrounded, the first settled stop vacates Dialog and promotes
Content; the second stop is not a no-op — it removes Content from the active
set (and clears its activity id). -/
theorem C7_counterexample :
    FMReachable exCfgs exS3 ∧ exS4.activeChannels ≠ exS3.activeChannels ∧
      getActivityId exS4 "Content" ≠ getActivityId exS3 "Content" :=
  ⟨exS3_reachable, by decide, by decide⟩

/-- C8 (confirmed): construction processes the configuration list in order; an
entry is inserted as a fresh channel iff its name differs from every
previously inserted name and its priority from every previously inserted
priority; the name check precedes the priority check (an entry duplicating
both is rejected with the channelNameExists log); a rejected entry leaves the
accumulated channels unchanged for the later entries; and after construction
the registered names and priorities are each unique. -/
theorem C8_construction_dedup (cfgs : List ChannelConfiguration) :
    ((mkFocusManager cfgs).allChannels.map Prod.fst).Nodup ∧
    ((mkFocusManager cfgs).allChannels.map (fun p => p.2.priority)).Nodup ∧
    (∀ (chans : List (String × Channel)) (logs : List LogEvent)
        (cfg : ChannelConfiguration) (rest : List ChannelConfiguration),
      (doesChannelNameExist chans cfg.name = true →
        buildChannels chans logs (cfg :: rest)
          = buildChannels chans (logs ++ [LogEvent.channelNameExists cfg]) rest) ∧
      (doesChannelNameExist chans cfg.name = false →
        doesChannelPriorityExist chans cfg.priority = true →
        buildChannels chans logs (cfg :: rest)
          = buildChannels chans (logs ++ [LogEvent.channelPriorityExists cfg]) rest) ∧
      (doesChannelNameExist chans cfg.name = false →
        doesChannelPriorityExist chans cfg.priority = false →
        buildChannels chans logs (cfg :: rest)
          = buildChannels
              (chans ++ [(cfg.name, Channel.mk cfg.priority none "" FocusState.NONE)])
              logs rest)) := by
  obtain ⟨h1, h2⟩ := buildChannels_nodup cfgs [] [] (by simp) (by simp)
  refine ⟨h1, h2, ?_⟩
  intro chans logs cfg rest
  exact ⟨buildChannels_name_dup chans logs cfg rest,
    buildChannels_prio_dup chans logs cfg rest,
    buildChannels_fresh chans logs cfg rest⟩

/-- C8 witness: the spec's duplicate-configuration scenario — with channel A
at priority 100 already inserted, entry (B,100) is rejected for its priority
and entry (A,200), which duplicates the name, is rejected for its name. -/
theorem C8_construction_dedup_witness :
    buildChannels [("A", Channel.mk 100 none "" FocusState.NONE)] []
        [ChannelConfiguration.mk "A" 200]
      = buildChannels [("A", Channel.mk 100 none "" FocusState.NONE)]
          [LogEvent.channelNameExists (ChannelConfiguration.mk "A" 200)] [] ∧
    buildChannels [("A", Channel.mk 100 none "" FocusState.NONE)] []
        [ChannelConfiguration.mk "B" 100]
      = buildChannels [("A", Channel.mk 100 none "" FocusState.NONE)]
          [LogEvent.channelPriorityExists (ChannelConfiguration.mk "B" 100)] [] :=
  ⟨((C8_construction_dedup []).2.2 [("A", Channel.mk 100 none "" FocusState.NONE)] []
      (ChannelConfiguration.mk "A" 200) []).1 (by decide),
    (((C8_construction_dedup []).2.2 [("A", Channel.mk 100 none "" FocusState.NONE)] []
      (ChannelConfiguration.mk "B" 100) []).2.1 (by decide) (by decide))⟩

/-- C9 (confirmed, implicit): acquire_channel validates only the channel name
— the returned Bool equals registration of the name, for a registered name the
helper task runs with the supplied observer (a null observer is accepted and
installed) and activity id (the empty string included), and an unknown name is
the sole failure, leaving the state unchanged. -/
theorem C9_acquire_validates_name_only (s : FMState) (name : String)
    (obs : Option Nat) (aid : String) :
    (acquireChannel s name obs aid).1 = (getChannel s name).isSome ∧
    (getChannel s name = none → (acquireChannel s name obs aid).2 = s) ∧
    ((getChannel s name).isSome = true →
      (acquireChannel s name obs aid).2 = acquireChannelHelper s name obs aid ∧
      observerOf (acquireChannel s name obs aid).2 name = obs ∧
      getActivityId (acquireChannel s name obs aid).2 name = aid) := by
  cases hch : getChannel s name with
  | none =>
    refine ⟨by simp [acquireChannel, hch], fun _ => by simp [acquireChannel, hch],
      fun hcon => ?_⟩
    exact absurd hcon (by simp)
  | some ch =>
    have hred : (acquireChannel s name obs aid).2 = acquireChannelHelper s name obs aid := by
      simp [acquireChannel, hch]
    refine ⟨by simp [acquireChannel, hch], fun hcon => ?_, fun _ => ?_⟩
    · cases hcon
    · refine ⟨hred, ?_, ?_⟩
      · rw [hred]
        exact acq_observer_self s name obs aid (by rw [hch]; rfl)
      · rw [hred]
        exact acq_aid_self s name obs aid (by rw [hch]; rfl)

/-- C9 witness: on the fresh manager, acquiring Dialog with a null observer
and empty activity id succeeds and installs the null observer, while an
unregistered name fails. -/
theorem C9_acquire_validates_name_only_witness :
    (acquireChannel exS0 "Dialog" none "").1 = true ∧
    observerOf (acquireChannel exS0 "Dialog" none "").2 "Dialog" = none ∧
    (acquireChannel exS0 "Unknown" none "x").1 = false := by
  have h1 := C9_acquire_validates_name_only exS0 "Dialog" none ""
  have h2 := C9_acquire_validates_name_only exS0 "Unknown" none "x"
  refine ⟨?_, (h1.2.2 (by decide)).2.1, ?_⟩
  · rw [h1.1]
    decide
  · rw [h2.1]
    decide

/-- C10 (confirmed, implicit): every acquire task on a registered channel
leaves the acquired channel present exactly once in the (duplicate-free)
active set — re-acquiring an already active channel adds no second entry —
and unconditionally overwrites that channel's activity id with the new
argument. -/
theorem C10_reacquire_set_semantics (s : FMState) (name : String) (obs : Option Nat)
    (aid : String) (hreg : (getChannel s name).isSome = true)
    (hnd : s.activeChannels.Nodup) :
    (acquireChannelHelper s name obs aid).activeChannels.count name = 1 ∧
    (acquireChannelHelper s name obs aid).activeChannels.Nodup ∧
    getActivityId (acquireChannelHelper s name obs aid) name = aid := by
  refine ⟨?_, ?_, acq_aid_self s name obs aid hreg⟩
  · rw [acq_active]
    by_cases hm : name ∈ s.activeChannels
    · rw [if_pos hm]
      exact List.count_eq_one_of_mem hnd hm
    · rw [if_neg hm]
      rw [List.count_cons_self, List.count_eq_zero_of_not_mem hm]
  · rw [acq_active]
    by_cases hm : name ∈ s.activeChannels
    · rw [if_pos hm]
      exact hnd
    · rw [if_neg hm]
      exact List.nodup_cons.mpr ⟨hm, hnd⟩

/-- C10 witness: re-acquiring the already active channel A under a new
activity id keeps it exactly once in the active set and overwrites the
activity id. -/
theorem C10_reacquire_set_semantics_witness :
    (acquireChannelHelper exT1 "A" (some 2) "y").activeChannels.count "A" = 1 ∧
    (acquireChannelHelper exT1 "A" (some 2) "y").activeChannels.Nodup ∧
    getActivityId (acquireChannelHelper exT1 "A" (some 2) "y") "A" = "y" :=
  C10_reacquire_set_semantics exT1 "A" (some 2) "y" (by decide) (by decide)
